import Mathlib

/-!
# Verification of `omegga-anti-microbrick` (`src/main.rs`)

A shallow embedding of the plugin's core logic:

* `warn_player` — the private-warning helper (`src/main.rs:345`).
* `check_save` — one enforcement pass over a decoded snapshot
  (`src/main.rs:156`): the brick scan, the cleared-owner enforcement loop,
  the snapshot rewrite (two `retain` calls), and the reconciliation sweep.
* `handleCommand` — the `/am` admin-command dispatch (`src/main.rs:73`).

Modelling conventions:

* UUIDs are modelled by their canonical string form (`abbrev Uuid := String`);
  the byte-level structure of `uuid::Uuid` is irrelevant to this program, and
  all keys are built and parsed by the plugin itself from `Uuid::to_string`,
  so `str::parse::<Uuid>` on such strings is total and the round trip is the
  identity.
* The key-value store is an association list; `set` replaces, `delete`
  removes, `keys` lists the stored keys.
* `Utc::now()` is modelled by a clock stream `c : Nat -> Nat`: the k-th call
  of the pass returns `c k` (the state carries the call counter `clk`).
* Rust panics (out-of-range `Vec` indexing, `unwrap` on a non-integer stored
  value) and `?`-propagated errors both abort the pass; they are modelled by
  the `PassErr` outcome.  Side effects already emitted before the abort are
  kept: every function returns the state (with its effect log) together with
  the outcome.
* `HashSet` iteration order for the cleared-owner enforcement loop is
  modelled as insertion order; no proved property depends on the order.
* Message strings are kept close to the source text but unessential
  formatting characters are dropped; no property depends on message text.
* The 1-second sleep and the actual file/console I/O are represented as
  effects (`writeSave`, `loadBricks`, `writeln`, ...) in the order the code
  emits them.
-/

namespace AntiMicrobrick

abbrev Uuid := String

/-- `PUBLIC_ID : Uuid = Uuid::from_bytes([0xff; 16])`, in canonical string form. -/
def PUBLIC_ID : Uuid := "ffffffff-ffff-ffff-ffff-ffffffffffff"

structure AuthPlayer where
  name : String
  id : String
deriving DecidableEq, Repr

/-- Plugin config (`struct Config`).  `clear_after` and `ban_time` are `f32`
in the source; they are modelled as rationals (the program only multiplies,
truncates and compares them, which is exact for the representable values). -/
structure Config where
  authorized : List AuthPlayer
  clear_after : ℚ
  max_violations : ℕ
  ban_time : ℚ
  max_bans : ℕ
deriving DecidableEq, Repr

/-- A connected player as returned by `omegga.get_players()`. -/
structure Player where
  name : String
  id : String
deriving DecidableEq, Repr

/-- One entry of `header2.brick_owners`. -/
structure BrickOwner where
  id : Uuid
  name : String
deriving DecidableEq, Repr

/-- A brick: only the two dictionary indices matter to the plugin; the rest
of the brick is opaque geometry. -/
structure Brick where
  asset_name_index : ℕ
  owner_index : ℕ
  geometry : ℕ
deriving DecidableEq, Repr

/-- Stored JSON values: the plugin stores strings (timers) and integers
(violation/ban counters). -/
inductive Value where
  | str : String → Value
  | int : ℤ → Value
deriving DecidableEq, Repr

/-- `serde_json::Value::as_i64`. -/
def Value.asI64 : Value → Option ℤ
  | .int n => some n
  | _ => none

abbrev Store := List (String × Value)

def storeGetFn (st : Store) (k : String) : Option Value :=
  (st.find? (fun e => e.1 == k)).map (·.2)

def storeRemoveFn (st : Store) (k : String) : Store :=
  st.filter (fun e => !(e.1 == k))

def storeSetFn (st : Store) (k : String) (v : Value) : Store :=
  (k, v) :: storeRemoveFn st k

def storeKeysFn (st : Store) : List String := st.map (·.1)

/-- ASCII lower-casing of one character (`u8::to_ascii_lowercase`). -/
def asciiLower (ch : Char) : Char :=
  if 'A' ≤ ch ∧ ch ≤ 'Z' then Char.ofNat (ch.toNat + 32) else ch

/-- `str::eq_ignore_ascii_case`. -/
def eqIgnoreAsciiCase (a b : String) : Bool :=
  a.data.map asciiLower == b.data.map asciiLower

/-- `str::to_lowercase`; the names involved are ASCII, so Unicode lowering is
modelled by ASCII lowering. -/
def toLowerStr (s : String) : String := ⟨s.data.map asciiLower⟩

/-- `str::contains(pat)`: substring containment. -/
def strContains (s pat : String) : Bool :=
  s.data.tails.any (fun t => pat.data.isPrefixOf t)

/-- `str::starts_with(pat)`. -/
def startsWithStr (s pat : String) : Bool := pat.data.isPrefixOf s.data

/-- An asset name is prohibited iff it contains the marker `"Micro"`
(`asset.contains("Micro")`). -/
def prohibitedAsset (a : String) : Bool := strContains a "Micro"

/-- `key.strip_prefix("ts:")`. -/
def stripTs (s : String) : Option String :=
  if "ts:".data.isPrefixOf s.data then some ⟨s.data.drop 3⟩ else none

/-- `str::parse::<u64>()`: succeeds on an all-digit string (the plugin only
parses strings it produced itself with `u64::to_string`, so the optional
sign and the `u64` overflow bound are never exercised and are not
modelled). -/
def parseU64 (s : String) : Option ℕ :=
  if !s.data.isEmpty && s.data.all (fun ch => 48 ≤ ch.toNat && ch.toNat ≤ 57) then
    some (s.data.foldl (fun n ch => n * 10 + (ch.toNat - 48)) 0)
  else none

/-- Observable side effects, in emission order. -/
inductive Effect where
  | broadcast : String → Effect
  | whisper : String → String → Effect
  | storeSet : String → Value → Effect
  | storeDelete : String → Effect
  | storeWipe : Effect
  | clearBricks : Uuid → Effect
  | logLine : String → Effect
  | writeln : String → Effect
  | writeSave : List Brick → Effect
  | loadBricks : Effect
deriving DecidableEq, Repr

def warnMessage : String :=
  "Microbricks are not allowed on this server! Please delete your microbricks or they will be cleared."

/-- `warn_player` (`src/main.rs:345`): whispers the warning, but only when
some connected player's *name* equals (ASCII-case-insensitively) the target
string.  Note the call sites pass the owner's UUID as the target. -/
def warn_player (players : List Player) (target : String) : List Effect :=
  if players.any (fun p => eqIgnoreAsciiCase p.name target) then
    [.whisper target warnMessage]
  else
    []

/-- Per-pass state: the two ephemeral owner sets, the external store, the
effect log, and the `Utc::now()` call counter. -/
structure PassState where
  micro : List Uuid
  cleared : List Uuid
  store : Store
  effects : List Effect
  clk : ℕ
deriving DecidableEq, Repr

/-- Pass-aborting failures: index panics, `parse::<u64>()?` failures, and
`as_i64().unwrap()` panics. -/
inductive PassErr where
  | assetIndexOOB : ℕ → PassErr
  | ownerIndexOOB : ℕ → PassErr
  | tsParseErr : String → PassErr
  | valueNotI64 : PassErr
deriving DecidableEq, Repr

instance {ε α : Type} [DecidableEq ε] [DecidableEq α] :
    DecidableEq (Except ε α) := fun a b =>
  match a, b with
  | .ok x, .ok y =>
    if h : x = y then isTrue (by rw [h]) else isFalse (by simp [h])
  | .error x, .error y =>
    if h : x = y then isTrue (by rw [h]) else isFalse (by simp [h])
  | .ok _, .error _ => isFalse (by simp)
  | .error _, .ok _ => isFalse (by simp)

/-- `(config.clear_after * 60.) as u64`: the grace period in seconds.
Computed on the reduced fraction: for a rational `q = num/den` (`den > 0`),
`⌊q * 60⌋ = (num * 60).fdiv den`; the Rust `as u64` cast truncates toward
zero (which is `⌊·⌋` on nonnegative values), sends negative values to 0 and
saturates at `u64::MAX`. -/
def graceSecs (cfg : Config) : ℕ :=
  let t : ℤ := (cfg.clear_after.num * 60).fdiv (cfg.clear_after.den : ℤ)
  if t ≤ 0 then 0
  else if t ≤ 18446744073709551615 then t.toNat
  else 18446744073709551615

/-- Rust `i64 as u32` (low 32 bits). -/
def i64AsU32 (n : ℤ) : ℕ := (n % 4294967296).toNat

def clearingMsg (name : String) : String :=
  "Clearing " ++ name ++ "s microbricks..."

/-- The body of the per-owner decision (`src/main.rs:189`–`235`), entered for
the resolved owner of a prohibited-asset brick. -/
def processOwner (cfg : Config) (c : ℕ → ℕ) (players : List Player)
    (owner : BrickOwner) (s : PassState) : PassState × Option PassErr :=
  if s.micro.contains owner.id || s.cleared.contains owner.id
      || owner.id == PUBLIC_ID then
    (s, none)
  else
    match storeGetFn s.store ("ts:" ++ owner.id) with
    | some (.str str) =>
      match parseU64 str with
      | none => (s, some (.tsParseErr str))
      | some ts =>
        let now := c s.clk
        let s1 := { s with clk := s.clk + 1 }
        if now ≥ ts + graceSecs cfg then
          ({ s1 with cleared := s1.cleared ++ [owner.id],
                     effects := s1.effects ++ [.broadcast (clearingMsg owner.name)] }, none)
        else
          ({ s1 with micro := s1.micro ++ [owner.id],
                     effects := s1.effects ++ warn_player players owner.id }, none)
    | _ =>
      let ts := c s.clk
      let s1 := { s with clk := s.clk + 1 }
      -- `config.clear_after == 0.`: a finite float is zero iff the exact
      -- rational it denotes is zero, iff the reduced numerator is zero
      if cfg.clear_after.num = 0 then
        ({ s1 with cleared := s1.cleared ++ [owner.id],
                   effects := s1.effects ++ [.broadcast (clearingMsg owner.name)] }, none)
      else
        ({ s1 with micro := s1.micro ++ [owner.id],
                   store := storeSetFn s1.store ("ts:" ++ owner.id) (.str (toString ts)),
                   effects := s1.effects
                     ++ [.storeSet ("ts:" ++ owner.id) (.str (toString ts))]
                     ++ warn_player players owner.id }, none)

/-- One iteration of the brick scan (`src/main.rs:180`–`237`): dereference
the asset index, and for a prohibited asset resolve and process the owner. -/
def processBrick (cfg : Config) (c : ℕ → ℕ) (players : List Player)
    (assets : List String) (owners : List BrickOwner) (b : Brick)
    (s : PassState) : PassState × Option PassErr :=
  match assets.get? b.asset_name_index with
  | none => (s, some (.assetIndexOOB b.asset_name_index))
  | some asset =>
    if prohibitedAsset asset then
      if b.owner_index = 0 then
        (s, none)
      else
        match owners.get? (b.owner_index - 1) with
        | none => (s, some (.ownerIndexOOB b.owner_index))
        | some owner => processOwner cfg c players owner s
    else
      (s, none)

/-- The brick scan loop; stops at the first failure, keeping the effects
already emitted. -/
def processBricks (cfg : Config) (c : ℕ → ℕ) (players : List Player)
    (assets : List String) (owners : List BrickOwner) :
    List Brick → PassState → PassState × Option PassErr
  | [], s => (s, none)
  | b :: rest, s =>
    match processBrick cfg c players assets owners b s with
    | (s', none) => processBricks cfg c players assets owners rest s'
    | (s', some e) => (s', some e)

def statusMsg (violations : ℤ) (maxV : ℕ) : String :=
  "You currently have " ++ toString violations
    ++ " microbrick violations. After " ++ toString maxV
    ++ ", you will be temporarily banned."

def permBanCmd (id : Uuid) : String :=
  "Chat.Command /Ban " ++ id ++ " -1 Microbricks are not allowed on this server."

def tempBanCmd (id : Uuid) (banTime : ℚ) (remaining : ℕ) : String :=
  "Chat.Command /Ban " ++ id ++ " " ++ toString banTime
    ++ " Microbricks are not allowed on this server. This ban will be permanent in "
    ++ toString remaining ++ " more violations."

/-- Enforcement for one cleared owner (`src/main.rs:240`–`295`): bulk
removal, violation increment, and the ban escalation. -/
def enforceOwner (cfg : Config) (id : Uuid) (s : PassState) :
    PassState × Option PassErr :=
  let sA : PassState := { s with effects := s.effects ++ [.clearBricks id] }
  let key := "violations:" ++ id
  let violations0 : Option ℤ :=
    match storeGetFn sA.store key with
    | some v => v.asI64
    | none => some 0
  match violations0 with
  | none => (sA, some .valueNotI64)
  | some v0 =>
    let violations := v0 + 1
    let sB : PassState := { sA with
      effects := sA.effects
        ++ [.logLine ("Clearing bricks of " ++ id ++ " (" ++ toString violations
              ++ " violations)")] }
    let sC : PassState :=
      { sB with store := storeSetFn sB.store key (.int violations),
                effects := sB.effects ++ [.storeSet key (.int violations)] }
    if i64AsU32 violations > cfg.max_violations then
      let bkey := "bans:" ++ id
      let bans0 : Option ℤ :=
        match storeGetFn sC.store bkey with
        | some v => v.asI64
        | none => some 0
      match bans0 with
      | none => (sC, some .valueNotI64)
      | some b0 =>
        let bans := b0 + 1
        let sD : PassState :=
          { sC with store := storeSetFn sC.store bkey (.int bans),
                    effects := sC.effects ++ [.storeSet bkey (.int bans)] }
        if i64AsU32 bans > cfg.max_bans then
          ({ sD with effects := sD.effects ++ [.writeln (permBanCmd id)] }, none)
        else
          ({ sD with effects := sD.effects
              ++ [.writeln (tempBanCmd id cfg.ban_time (cfg.max_bans - i64AsU32 bans))] },
            none)
    else
      ({ sC with effects := sC.effects
          ++ [.whisper id (statusMsg violations cfg.max_violations)] }, none)

/-- The cleared-owner loop (insertion order models the `HashSet` walk). -/
def enforceOwners (cfg : Config) :
    List Uuid → PassState → PassState × Option PassErr
  | [], s => (s, none)
  | id :: rest, s =>
    match enforceOwner cfg id s with
    | (s', none) => enforceOwners cfg rest s'
    | (s', some e) => (s', some e)

/-- `Vec::retain` with a predicate that can panic: visits the elements in
order and stops at the first failure. -/
def filterE {α : Type} (p : α → Except PassErr Bool) :
    List α → Except PassErr (List α)
  | [] => Except.ok []
  | a :: rest =>
    match p a with
    | Except.error e => Except.error e
    | Except.ok keep =>
      match filterE p rest with
      | Except.error e => Except.error e
      | Except.ok r => Except.ok (if keep then a :: r else r)

/-- First `retain` of the rewrite (`src/main.rs:299`): keep bricks with
`owner_index > 0` whose resolved owner is in `cleared_owners`. -/
def retainOwner (owners : List BrickOwner) (cleared : List Uuid) (b : Brick) :
    Except PassErr Bool :=
  if b.owner_index = 0 then .ok false
  else
    match owners.get? (b.owner_index - 1) with
    | none => .error (.ownerIndexOOB b.owner_index)
    | some o => .ok (cleared.contains o.id)

/-- Second `retain` of the rewrite (`src/main.rs:305`): drop prohibited
assets. -/
def retainNonMicro (assets : List String) (b : Brick) : Except PassErr Bool :=
  match assets.get? b.asset_name_index with
  | none => .error (.assetIndexOOB b.asset_name_index)
  | some a => .ok (!prohibitedAsset a)

/-- The reconciliation sweep (`src/main.rs:332`–`340`) over one fixed list
of store keys.  `Uuid` parsing of a `ts:`-stripped key is total in this
model (see the header comment). -/
def reconcileGo : List String → PassState → PassState
  | [], s => s
  | k :: rest, s =>
    match stripTs k with
    | none => reconcileGo rest s
    | some idStr =>
      if s.cleared.contains idStr || !(s.micro.contains idStr) then
        reconcileGo rest
          { s with store := storeRemoveFn s.store ("ts:" ++ idStr),
                   effects := s.effects ++ [.storeDelete ("ts:" ++ idStr)] }
      else
        reconcileGo rest s

/-- One enforcement pass, `check_save` (`src/main.rs:156`): returns the final
state (effect log included even on abort) and the outcome; on full success
the outcome carries the rewritten brick list (`none` when the dictionary
pre-check found no prohibited asset and the pass stopped early). -/
def check_save (cfg : Config) (c : ℕ → ℕ) (players : List Player)
    (assets : List String) (owners : List BrickOwner) (bricks : List Brick)
    (store0 : Store) : PassState × Except PassErr (Option (List Brick)) :=
  let s0 : PassState := ⟨[], [], store0, [], 0⟩
  if !(assets.any prohibitedAsset) then
    (s0, .ok none)
  else
    match processBricks cfg c players assets owners bricks s0 with
    | (s1, some e) => (s1, .error e)
    | (s1, none) =>
      match enforceOwners cfg s1.cleared s1 with
      | (s2, some e) => (s2, .error e)
      | (s2, none) =>
        match filterE (retainOwner owners s2.cleared) bricks with
        | .error e => (s2, .error e)
        | .ok bricks1 =>
          match filterE (retainNonMicro assets) bricks1 with
          | .error e => (s2, .error e)
          | .ok bricks2 =>
            let s3 := { s2 with effects := s2.effects ++ [.writeSave bricks2, .loadBricks] }
            let s4 := reconcileGo (storeKeysFn s3.store) s3
            (s4, .ok (some bricks2))

/-- Modelled from the spec: "every time comparison uses a single now
timestamp captured once at the start of the pass".  Identical per-owner
logic, but every `Utc::now()` returns the one pass-wide `now` (the `clk`
counter is still advanced so that states stay aligned with the code's). -/
def processOwnerSpec (cfg : Config) (players : List Player) (now : ℕ)
    (owner : BrickOwner) (s : PassState) : PassState × Option PassErr :=
  if s.micro.contains owner.id || s.cleared.contains owner.id
      || owner.id == PUBLIC_ID then
    (s, none)
  else
    match storeGetFn s.store ("ts:" ++ owner.id) with
    | some (.str str) =>
      match parseU64 str with
      | none => (s, some (.tsParseErr str))
      | some ts =>
        let s1 := { s with clk := s.clk + 1 }
        if now ≥ ts + graceSecs cfg then
          ({ s1 with cleared := s1.cleared ++ [owner.id],
                     effects := s1.effects ++ [.broadcast (clearingMsg owner.name)] }, none)
        else
          ({ s1 with micro := s1.micro ++ [owner.id],
                     effects := s1.effects ++ warn_player players owner.id }, none)
    | _ =>
      let ts := now
      let s1 := { s with clk := s.clk + 1 }
      if cfg.clear_after.num = 0 then
        ({ s1 with cleared := s1.cleared ++ [owner.id],
                   effects := s1.effects ++ [.broadcast (clearingMsg owner.name)] }, none)
      else
        ({ s1 with micro := s1.micro ++ [owner.id],
                   store := storeSetFn s1.store ("ts:" ++ owner.id) (.str (toString ts)),
                   effects := s1.effects
                     ++ [.storeSet ("ts:" ++ owner.id) (.str (toString ts))]
                     ++ warn_player players owner.id }, none)

/-- Modelled from the spec: one brick-scan iteration under the single-now
semantics. -/
def processBrickSpec (cfg : Config) (players : List Player) (now : ℕ)
    (assets : List String) (owners : List BrickOwner) (b : Brick)
    (s : PassState) : PassState × Option PassErr :=
  match assets.get? b.asset_name_index with
  | none => (s, some (.assetIndexOOB b.asset_name_index))
  | some asset =>
    if prohibitedAsset asset then
      if b.owner_index = 0 then
        (s, none)
      else
        match owners.get? (b.owner_index - 1) with
        | none => (s, some (.ownerIndexOOB b.owner_index))
        | some owner => processOwnerSpec cfg players now owner s
    else
      (s, none)

/-- Modelled from the spec: the brick scan under the single-now semantics. -/
def processBricksSpec (cfg : Config) (players : List Player) (now : ℕ)
    (assets : List String) (owners : List BrickOwner) :
    List Brick → PassState → PassState × Option PassErr
  | [], s => (s, none)
  | b :: rest, s =>
    match processBrickSpec cfg players now assets owners b s with
    | (s', none) => processBricksSpec cfg players now assets owners rest s'
    | (s', some e) => (s', some e)

/-! ## The `/am` command handler (`src/main.rs:73`–`132`) -/

inductive CmdErr where
  | argIndexOOB : CmdErr
deriving DecidableEq, Repr

inductive CmdOut where
  | skipped : CmdOut
  | acted : List Effect → CmdOut
deriving DecidableEq, Repr

def cleanPromptMsg : String := "Please specify a player to clean."

def cleanDoneMsg (name : String) : String :=
  "Cleared " ++ name ++ "s record, if any."

def wipeDoneMsg : String := "OK, all records wiped."

def wipeConfirmMsg : String :=
  "Are you sure you wish to wipe all records? Please run /am wipe yes to confirm."

def invalidSubMsg (x : String) : String :=
  "Invalid subcommand /am " ++ x ++ "."

/-- The `Event::Command` arm of `main`.  `rosterRes` is the outcome of
`omegga.get_players()`; note the code reads `args[0]` (a potential index
panic, modelled as `CmdErr.argIndexOOB`) after the allow-list check but
before anything else. -/
def handleCommand (cfg : Config) (invoker : String) (command : String)
    (args : List String) (rosterRes : Except Unit (List Player)) :
    Except CmdErr CmdOut :=
  if command ≠ "am" then .ok .skipped
  else if !(cfg.authorized.any (fun p => eqIgnoreAsciiCase p.name invoker)) then
    .ok .skipped
  else
    match args.get? 0 with
    | none => .error .argIndexOOB
    | some subcommand =>
      match rosterRes with
      | .error _ => .ok .skipped
      | .ok players =>
        match subcommand with
        | "clean" =>
          let target := toLowerStr (String.join (args.drop 1))
          match players.find? (fun p => startsWithStr (toLowerStr p.name) target) with
          | none => .ok (.acted [.whisper invoker cleanPromptMsg])
          | some t =>
            .ok (.acted [.storeDelete ("ts:" ++ t.id),
                         .storeDelete ("violations:" ++ t.id),
                         .storeDelete ("bans:" ++ t.id),
                         .whisper invoker (cleanDoneMsg t.name)])
        | "wipe" =>
          match args.get? 1 with
          | some s =>
            if s = "yes" then .ok (.acted [.storeWipe, .whisper invoker wipeDoneMsg])
            else .ok (.acted [.whisper invoker wipeConfirmMsg])
          | none => .ok (.acted [.whisper invoker wipeConfirmMsg])
        | x => .ok (.acted [.whisper invoker (invalidSubMsg x)])


/-! ## Concrete instances used by counterexamples and witnesses -/

/-- A whole-number rational, built directly in reduced form. -/
def qInt (n : ℤ) : ℚ := ⟨n, 1, by decide, Nat.coprime_one_right _⟩

def idA : Uuid := "aaaaaaaa-aaaa-aaaa-aaaa-aaaaaaaaaaaa"

def idB : Uuid := "bbbbbbbb-bbbb-bbbb-bbbb-bbbbbbbbbbbb"

/-- 1-minute grace, 3 violations, 5-minute bans, 2 bans. -/
def cfg1 : Config := ⟨[], qInt 1, 3, qInt 5, 2⟩

def assetsMicroOnly : List String := ["MicroBrick"]

def ownersAB : List BrickOwner := [⟨idA, "A"⟩, ⟨idB, "B"⟩]

def bricksAB : List Brick := [⟨0, 1, 0⟩, ⟨0, 2, 0⟩]

def storeAB : Store := [("ts:" ++ idA, .str "100"), ("ts:" ++ idB, .str "100")]

/-- Clock frozen at 150. -/
def clockConst150 : ℕ → ℕ := fun _ => 150

/-- Clock that starts at 150 and has advanced to 200 by the second read. -/
def clockAdvancing : ℕ → ℕ := fun k => if k = 0 then 150 else 200

/-! ## Generic helper lemmas -/

theorem startsWithStr_empty (s : String) : startsWithStr s "" = true := by
  simp [startsWithStr, List.isPrefixOf]

/-- The code's and the spec-modelled per-owner step agree when the clock is
frozen: with `c = fun _ => now`, `c s.clk` is definitionally `now`. -/
theorem processOwner_const (cfg : Config) (now : ℕ) (players : List Player)
    (o : BrickOwner) (s : PassState) :
    processOwner cfg (fun _ => now) players o s
      = processOwnerSpec cfg players now o s := rfl

theorem processBrick_const (cfg : Config) (now : ℕ) (players : List Player)
    (assets : List String) (owners : List BrickOwner) (b : Brick)
    (s : PassState) :
    processBrick cfg (fun _ => now) players assets owners b s
      = processBrickSpec cfg players now assets owners b s := rfl

/-! ## C2 — per-owner `now`, not a single pass-wide timestamp -/

/-- C2 (counterexample). The claim "every time comparison uses a single now
captured once at the start of the pass; two runs differing only in how the
clock advances between per-owner reads produce identical decisions" is
false: both runs read 150 at the first per-owner read, but the run whose
clock has advanced to 200 by the second read clears owner B while the
frozen-clock run clears nobody — `Utc::now()` is called again for every
owner (`src/main.rs:203`, `src/main.rs:220`). -/
theorem c2_per_owner_now_counterexample :
    clockConst150 0 = clockAdvancing 0
    ∧ (check_save cfg1 clockConst150 [] assetsMicroOnly ownersAB bricksAB storeAB).1.cleared = []
    ∧ (check_save cfg1 clockAdvancing [] assetsMicroOnly ownersAB bricksAB storeAB).1.cleared = [idB] := by
  decide

/-- C2 (amended). Each time comparison and each written timestamp uses a
`now` read at that owner's processing; a pass whose clock does not advance
(all reads return the same `now`) behaves exactly like the spec's
single-now pass. -/
theorem c2_frozen_clock_refines_single_now (cfg : Config) (players : List Player)
    (now : ℕ) (assets : List String) (owners : List BrickOwner)
    (l : List Brick) (s : PassState) :
    processBricks cfg (fun _ => now) players assets owners l s
      = processBricksSpec cfg players now assets owners l s := by
  induction l generalizing s with
  | nil => rfl
  | cons b rest ih =>
    simp only [processBricks, processBricksSpec, processBrick_const]
    rcases h : processBrickSpec cfg players now assets owners b s with ⟨s', e?⟩
    cases e? <;> simp [ih]

/-! ## C5 — warning reaches no connected owner: name/id confusion -/

def rosterAlice : List Player := [⟨"Alice", idA⟩]

def ownersAlice : List BrickOwner := [⟨idA, "Alice"⟩]

def brickOfA : List Brick := [⟨0, 1, 0⟩]

/-- C5 (code bug). A first-seen violating owner who *is* connected (the
roster contains a player whose id is the owner's id) is tracked — the
timer is written and the owner enters `microOwners` — but receives no
warning: `warn_player` is handed `owner.id` yet compares it against
connected players' *names* (`src/main.rs:215`, `src/main.rs:350`), so the
whisper is never sent and the effect log contains no whisper at all. -/
theorem c5_connected_owner_not_warned :
    (check_save cfg1 (fun _ => 500) rosterAlice assetsMicroOnly ownersAlice brickOfA []).1.effects
      = [.storeSet ("ts:" ++ idA) (.str "500"), .writeSave [], .loadBricks]
    ∧ (check_save cfg1 (fun _ => 500) rosterAlice assetsMicroOnly ownersAlice brickOfA []).1.micro = [idA]
    ∧ (⟨"Alice", idA⟩ : Player) ∈ rosterAlice
    ∧ warn_player rosterAlice idA = [] := by
  decide

/-! ## C9 — `clean` with no target hits the first connected player -/

/-- C9. For an allow-listed invoker, `/am clean` with no target builds the
empty search string, which is a (case-insensitive) prefix of every name, so
`find` returns the first player of the roster and all three of that
player's ledger keys are deleted — the "please specify a player" reply is
not produced (`src/main.rs:97`–`121`). -/
theorem c9_clean_no_target (cfg : Config) (invoker : String) (p : Player)
    (rest : List Player)
    (hauth : cfg.authorized.any (fun q => eqIgnoreAsciiCase q.name invoker) = true) :
    handleCommand cfg invoker "am" ["clean"] (.ok (p :: rest))
      = .ok (.acted [.storeDelete ("ts:" ++ p.id),
                     .storeDelete ("violations:" ++ p.id),
                     .storeDelete ("bans:" ++ p.id),
                     .whisper invoker (cleanDoneMsg p.name)])
    ∧ (∀ q : Player, startsWithStr (toLowerStr q.name) "" = true) := by
  constructor
  · simp [handleCommand, hauth, List.find?,
      show toLowerStr (String.join []) = "" from rfl, startsWithStr_empty]
  · intro q; exact startsWithStr_empty _

/-- C9 (witness). -/
theorem c9_clean_no_target_witness :
    (⟨[⟨"Admin", idA⟩], qInt 1, 3, qInt 5, 2⟩ : Config).authorized.any
        (fun q => eqIgnoreAsciiCase q.name "Admin") = true
    ∧ handleCommand ⟨[⟨"Admin", idA⟩], qInt 1, 3, qInt 5, 2⟩ "Admin" "am" ["clean"]
        (.ok [⟨"Zed", idB⟩, ⟨"Alice", idA⟩])
        = .ok (.acted [.storeDelete ("ts:" ++ idB),
                       .storeDelete ("violations:" ++ idB),
                       .storeDelete ("bans:" ++ idB),
                       .whisper "Admin" (cleanDoneMsg "Zed")]) :=
  ⟨by decide,
   (c9_clean_no_target ⟨[⟨"Admin", idA⟩], qInt 1, 3, qInt 5, 2⟩ "Admin" ⟨"Zed", idB⟩
      [⟨"Alice", idA⟩] (by decide)).1⟩

/-! ## C10 — `args[0]` is read before any emptiness check -/

/-- C10. For a command event from an allow-listed invoker, `args[0]` is read
before anything checks that an argument exists (`src/main.rs:90`): with an
empty argument list the index is out of range and the pass of the handler
aborts in the error branch, whatever the roster query would have
returned. -/
theorem c10_arg_index_unchecked (cfg : Config) (invoker : String)
    (rosterRes : Except Unit (List Player))
    (hauth : cfg.authorized.any (fun q => eqIgnoreAsciiCase q.name invoker) = true) :
    handleCommand cfg invoker "am" [] rosterRes = .error .argIndexOOB := by
  simp [handleCommand, hauth]

/-- C10 (witness). -/
theorem c10_arg_index_unchecked_witness :
    handleCommand ⟨[⟨"Admin", idA⟩], qInt 1, 3, qInt 5, 2⟩ "Admin" "am" []
      (.ok []) = .error .argIndexOOB :=
  c10_arg_index_unchecked _ "Admin" (.ok []) (by decide)

/-! ## Store lemmas -/

theorem storeGetFn_cons (e : String × Value) (rest : Store) (k : String) :
    storeGetFn (e :: rest) k
      = if e.1 = k then some e.2 else storeGetFn rest k := by
  by_cases h : e.1 = k <;> simp [storeGetFn, List.find?_cons, h]

theorem storeRemoveFn_cons (e : String × Value) (rest : Store) (k : String) :
    storeRemoveFn (e :: rest) k
      = if e.1 = k then storeRemoveFn rest k else e :: storeRemoveFn rest k := by
  by_cases h : e.1 = k <;> simp [storeRemoveFn, List.filter_cons, h]

theorem storeKeysFn_cons (e : String × Value) (rest : Store) :
    storeKeysFn (e :: rest) = e.1 :: storeKeysFn rest := rfl

theorem storeGet_remove_self (st : Store) (k : String) :
    storeGetFn (storeRemoveFn st k) k = none := by
  induction st with
  | nil => rfl
  | cons e rest ih =>
    rw [storeRemoveFn_cons]
    by_cases h : e.1 = k
    · simpa [h] using ih
    · rw [if_neg h, storeGetFn_cons, if_neg h]
      exact ih

theorem storeGet_remove_ne (st : Store) {k k' : String} (h : k ≠ k') :
    storeGetFn (storeRemoveFn st k') k = storeGetFn st k := by
  induction st with
  | nil => rfl
  | cons e rest ih =>
    rw [storeRemoveFn_cons, storeGetFn_cons]
    by_cases he : e.1 = k'
    · rw [if_pos he, if_neg (by rw [he]; exact fun hh => h hh.symm), ih]
    · rw [if_neg he, storeGetFn_cons]
      by_cases hek : e.1 = k
      · rw [if_pos hek, if_pos hek]
      · rw [if_neg hek, if_neg hek, ih]

theorem storeGet_set_self (st : Store) (k : String) (v : Value) :
    storeGetFn (storeSetFn st k v) k = some v := by
  rw [storeSetFn, storeGetFn_cons, if_pos rfl]

theorem storeGet_set_ne (st : Store) {k k' : String} (v : Value) (h : k ≠ k') :
    storeGetFn (storeSetFn st k' v) k = storeGetFn st k := by
  rw [storeSetFn, storeGetFn_cons, if_neg (fun hh => h hh.symm)]
  exact storeGet_remove_ne st h

theorem storeGet_none_of_not_mem_keys (st : Store) {k : String}
    (h : k ∉ storeKeysFn st) : storeGetFn st k = none := by
  induction st with
  | nil => rfl
  | cons e rest ih =>
    rw [storeKeysFn_cons, List.mem_cons, not_or] at h
    rw [storeGetFn_cons, if_neg (fun hh => h.1 hh.symm)]
    exact ih h.2

theorem storeGet_isSome_of_mem_keys (st : Store) {k : String}
    (h : k ∈ storeKeysFn st) : ∃ v, storeGetFn st k = some v := by
  induction st with
  | nil => cases h
  | cons e rest ih =>
    rw [storeKeysFn_cons, List.mem_cons] at h
    by_cases he : e.1 = k
    · exact ⟨e.2, by rw [storeGetFn_cons, if_pos he]⟩
    · rcases h with h | h
      · exact absurd h.symm he
      · rcases ih h with ⟨v, hv⟩
        exact ⟨v, by rw [storeGetFn_cons, if_neg he]; exact hv⟩

/-! ## Key-shape lemmas -/

theorem string_append_left_cancel {p a b : String} (h : p ++ a = p ++ b) :
    a = b := by
  have hd := congrArg String.data h
  simp only [String.data_append] at hd
  exact String.ext (List.append_cancel_left hd)

theorem stripTs_ts_key (id : String) : stripTs ("ts:" ++ id) = some id := by
  have hd : ("ts:" ++ id).data = 't' :: 's' :: ':' :: id.data := by
    simp [String.data_append]
  simp [stripTs, hd, List.isPrefixOf]

theorem ts_key_ne_violations (a b : String) :
    ("ts:" ++ a : String) ≠ "violations:" ++ b := by
  intro h
  have hd := congrArg String.data h
  simp only [String.data_append] at hd
  simp only [List.cons_append, List.nil_append] at hd
  injection hd with h1 _
  exact absurd h1 (by decide)

theorem ts_key_ne_bans (a b : String) :
    ("ts:" ++ a : String) ≠ "bans:" ++ b := by
  intro h
  have hd := congrArg String.data h
  simp only [String.data_append] at hd
  simp only [List.cons_append, List.nil_append] at hd
  injection hd with h1 _
  exact absurd h1 (by decide)

theorem ts_key_inj {a b : String} (h : ("ts:" ++ a : String) = "ts:" ++ b) :
    a = b := string_append_left_cancel h

/-! ## `filterE` lemmas -/

theorem filterE_ok_mem {α : Type} {p : α → Except PassErr Bool} :
    ∀ {l r : List α}, filterE p l = .ok r →
      ∀ x : α, x ∈ r ↔ x ∈ l ∧ p x = .ok true := by
  intro l
  induction l with
  | nil =>
    intro r h x
    simp only [filterE] at h
    cases h
    simp
  | cons a rest ih =>
    intro r h x
    rcases hp : p a with e | keep <;> rw [filterE, hp] at h
    · cases h
    · rcases hrec : filterE p rest with e | r' <;> rw [hrec] at h
      · cases h
      · cases h
        cases keep with
        | false =>
          rw [if_neg (by simp)]
          rw [ih hrec x]
          constructor
          · rintro ⟨hx, hpx⟩
            exact ⟨List.mem_cons_of_mem _ hx, hpx⟩
          · rintro ⟨hmem, hpx⟩
            rcases List.mem_cons.1 hmem with rfl | hmem
            · rw [hp] at hpx
              cases hpx
            · exact ⟨hmem, hpx⟩
        | true =>
          rw [if_pos rfl]
          constructor
          · intro hx
            rcases List.mem_cons.1 hx with rfl | hx
            · exact ⟨List.mem_cons_self _ _, hp⟩
            · rcases (ih hrec x).1 hx with ⟨hmem, hpx⟩
              exact ⟨List.mem_cons_of_mem _ hmem, hpx⟩
          · rintro ⟨hmem, hpx⟩
            rcases List.mem_cons.1 hmem with rfl | hmem
            · exact List.mem_cons_self _ _
            · exact List.mem_cons_of_mem _ ((ih hrec x).2 ⟨hmem, hpx⟩)

theorem filterE_ok_forall {α : Type} {p : α → Except PassErr Bool} :
    ∀ {l r : List α}, filterE p l = .ok r →
      ∀ x ∈ l, ∃ bl, p x = .ok bl := by
  intro l
  induction l with
  | nil => intro r _ x hx; cases hx
  | cons a rest ih =>
    intro r h x hx
    rcases hp : p a with e | keep <;> rw [filterE, hp] at h
    · cases h
    · rcases hrec : filterE p rest with e | r' <;> rw [hrec] at h
      · cases h
      · rcases List.mem_cons.1 hx with rfl | hx
        · exact ⟨keep, hp⟩
        · exact ih hrec x hx

/-! ## Per-owner step lemmas -/

/-- The spec's invariant over the two per-pass sets: disjoint and
sentinel-free. -/
def SetsInv (s : PassState) : Prop :=
  (∀ x ∈ s.micro, x ∉ s.cleared) ∧ PUBLIC_ID ∉ s.micro ∧ PUBLIC_ID ∉ s.cleared

theorem warn_player_no_storeSet (players : List Player) (t k : String)
    (v : Value) : Effect.storeSet k v ∉ warn_player players t := by
  unfold warn_player
  split <;> simp

theorem processOwner_micro_mono (cfg : Config) (c : ℕ → ℕ) (players : List Player)
    (o : BrickOwner) (s : PassState) {id : Uuid} (h : id ∈ s.micro) :
    id ∈ (processOwner cfg c players o s).1.micro := by
  simp only [processOwner]
  repeat' split
  all_goals simp_all

theorem processOwner_cleared_mono (cfg : Config) (c : ℕ → ℕ) (players : List Player)
    (o : BrickOwner) (s : PassState) {id : Uuid} (h : id ∈ s.cleared) :
    id ∈ (processOwner cfg c players o s).1.cleared := by
  simp only [processOwner]
  repeat' split
  all_goals simp_all

theorem processOwner_store_cases (cfg : Config) (c : ℕ → ℕ)
    (players : List Player) (o : BrickOwner) (s : PassState) :
    (processOwner cfg c players o s).1.store = s.store
    ∨ ((∀ str, storeGetFn s.store ("ts:" ++ o.id) ≠ some (.str str))
       ∧ cfg.clear_after.num ≠ 0
       ∧ ∃ v, (processOwner cfg c players o s).1.store
           = storeSetFn s.store ("ts:" ++ o.id) v) := by
  simp only [processOwner]
  repeat' split
  all_goals simp_all

theorem processOwner_effects_cases (cfg : Config) (c : ℕ → ℕ)
    (players : List Player) (o : BrickOwner) (s : PassState) (k : String)
    (v : Value) (h : Effect.storeSet k v ∈ (processOwner cfg c players o s).1.effects) :
    Effect.storeSet k v ∈ s.effects
    ∨ (k = "ts:" ++ o.id ∧ cfg.clear_after.num ≠ 0
       ∧ (∀ str, storeGetFn s.store ("ts:" ++ o.id) ≠ some (.str str))) := by
  simp only [processOwner] at h
  revert h
  repeat' split
  all_goals intro h
  all_goals simp_all [List.mem_append]
  all_goals rcases h with h | h
  all_goals simp_all [warn_player_no_storeSet]

theorem processOwner_micro_cases (cfg : Config) (c : ℕ → ℕ)
    (players : List Player) (o : BrickOwner) (s : PassState) {id : Uuid}
    (h : id ∈ (processOwner cfg c players o s).1.micro) :
    id ∈ s.micro
    ∨ (id = o.id ∧ o.id ∉ s.micro ∧ o.id ∉ s.cleared ∧ o.id ≠ PUBLIC_ID
       ∧ ((∃ str ts, storeGetFn s.store ("ts:" ++ o.id) = some (.str str)
             ∧ parseU64 str = some ts ∧ c s.clk < ts + graceSecs cfg)
          ∨ ((∀ str, storeGetFn s.store ("ts:" ++ o.id) ≠ some (.str str))
             ∧ cfg.clear_after.num ≠ 0))) := by
  revert h
  simp only [processOwner]
  repeat' split
  all_goals intro h
  all_goals simp_all [List.mem_append]

theorem processOwner_cleared_cases (cfg : Config) (c : ℕ → ℕ)
    (players : List Player) (o : BrickOwner) (s : PassState) {id : Uuid}
    (h : id ∈ (processOwner cfg c players o s).1.cleared) :
    id ∈ s.cleared
    ∨ (id = o.id ∧ o.id ∉ s.micro ∧ o.id ∉ s.cleared ∧ o.id ≠ PUBLIC_ID
       ∧ ((∃ str ts, storeGetFn s.store ("ts:" ++ o.id) = some (.str str)
             ∧ parseU64 str = some ts ∧ ts + graceSecs cfg ≤ c s.clk)
          ∨ ((∀ str, storeGetFn s.store ("ts:" ++ o.id) ≠ some (.str str))
             ∧ cfg.clear_after.num = 0))) := by
  revert h
  simp only [processOwner]
  repeat' split
  all_goals intro h
  all_goals simp_all [List.mem_append]

theorem processOwner_inv (cfg : Config) (c : ℕ → ℕ) (players : List Player)
    (o : BrickOwner) (s : PassState) (h : SetsInv s) :
    SetsInv (processOwner cfg c players o s).1 := by
  obtain ⟨hdis, hmic, hclr⟩ := h
  refine ⟨fun x hx hx' => ?_, fun hx => ?_, fun hx => ?_⟩
  · rcases processOwner_micro_cases cfg c players o s hx with hm | ⟨rfl, hnm, hnc, _, hcond⟩
    · rcases processOwner_cleared_cases cfg c players o s hx' with hc | ⟨he, hnm2, _, _, _⟩
      · exact hdis x hm hc
      · exact hnm2 (he ▸ hm)
    · rcases processOwner_cleared_cases cfg c players o s hx' with hc | ⟨_, _, _, _, hcond'⟩
      · exact hnc hc
      · rcases hcond with ⟨str, ts, hg, hp, hlt⟩ | ⟨hns, hnum⟩
        · rcases hcond' with ⟨str', ts', hg', hp', hge⟩ | ⟨hns', _⟩
          · rw [hg] at hg'
            cases hg'
            rw [hp] at hp'
            cases hp'
            omega
          · exact hns' _ hg
        · rcases hcond' with ⟨str', _, hg', _, _⟩ | ⟨_, hnum'⟩
          · exact hns _ hg'
          · exact hnum hnum'
  · rcases processOwner_micro_cases cfg c players o s hx with hm | ⟨he, _, _, hnp, _⟩
    · exact hmic hm
    · exact hnp he.symm
  · rcases processOwner_cleared_cases cfg c players o s hx with hc | ⟨he, _, _, hnp, _⟩
    · exact hclr hc
    · exact hnp he.symm

theorem processOwner_clears_fresh (cfg : Config) (c : ℕ → ℕ)
    (players : List Player) (o : BrickOwner) (s : PassState) {id : Uuid}
    (hoid : o.id = id) (hm : id ∉ s.micro) (hc : id ∉ s.cleared)
    (hp : id ≠ PUBLIC_ID) (hget : storeGetFn s.store ("ts:" ++ id) = none)
    (h0 : cfg.clear_after.num = 0) :
    id ∈ (processOwner cfg c players o s).1.cleared := by
  subst hoid
  simp only [processOwner]
  repeat' split
  all_goals simp_all

theorem processOwner_warns_unexpired (cfg : Config) (c : ℕ → ℕ)
    (players : List Player) (o : BrickOwner) (s : PassState) {id : Uuid}
    {str : String} {T : ℕ}
    (hoid : o.id = id) (hm : id ∉ s.micro) (hc : id ∉ s.cleared)
    (hp : id ≠ PUBLIC_ID)
    (hget : storeGetFn s.store ("ts:" ++ id) = some (.str str))
    (hT : parseU64 str = some T) (hlt : c s.clk < T + graceSecs cfg) :
    id ∈ (processOwner cfg c players o s).1.micro := by
  subst hoid
  simp only [processOwner]
  repeat' split
  all_goals simp_all
  all_goals omega

/-! ## Per-brick step lemmas -/

/-- Brick `b` names owner `id`: its asset dereferences to a prohibited name
and its owner index dereferences to a record with id `id`. -/
def ResolvesTo (assets : List String) (owners : List BrickOwner) (b : Brick)
    (id : Uuid) : Prop :=
  (∃ a, assets.get? b.asset_name_index = some a ∧ prohibitedAsset a = true)
  ∧ 1 ≤ b.owner_index
  ∧ ∃ o, owners.get? (b.owner_index - 1) = some o ∧ o.id = id

theorem processOwner_storeGet_str_preserved (cfg : Config) (c : ℕ → ℕ)
    (players : List Player) (o : BrickOwner) (s : PassState) {id : Uuid}
    {str : String}
    (hget : storeGetFn s.store ("ts:" ++ id) = some (.str str)) :
    storeGetFn (processOwner cfg c players o s).1.store ("ts:" ++ id)
      = some (.str str) := by
  rcases processOwner_store_cases cfg c players o s with h | ⟨hne, _, v, h⟩
  · rw [h]; exact hget
  · by_cases ho : o.id = id
    · exact absurd (ho ▸ hget) (hne str)
    · rw [h, storeGet_set_ne _ v (fun hk => ho (ts_key_inj hk).symm)]
      exact hget

theorem processBrick_micro_mono (cfg : Config) (c : ℕ → ℕ) (players : List Player)
    (assets : List String) (owners : List BrickOwner) (b : Brick)
    (s : PassState) {id : Uuid} (h : id ∈ s.micro) :
    id ∈ (processBrick cfg c players assets owners b s).1.micro := by
  simp only [processBrick]
  repeat' split
  all_goals first
    | exact h
    | exact processOwner_micro_mono cfg c players _ s h

theorem processBrick_cleared_mono (cfg : Config) (c : ℕ → ℕ) (players : List Player)
    (assets : List String) (owners : List BrickOwner) (b : Brick)
    (s : PassState) {id : Uuid} (h : id ∈ s.cleared) :
    id ∈ (processBrick cfg c players assets owners b s).1.cleared := by
  simp only [processBrick]
  repeat' split
  all_goals first
    | exact h
    | exact processOwner_cleared_mono cfg c players _ s h

theorem processBrick_inv (cfg : Config) (c : ℕ → ℕ) (players : List Player)
    (assets : List String) (owners : List BrickOwner) (b : Brick)
    (s : PassState) (h : SetsInv s) :
    SetsInv (processBrick cfg c players assets owners b s).1 := by
  simp only [processBrick]
  repeat' split
  all_goals first
    | exact h
    | exact processOwner_inv cfg c players _ s h

theorem processBrick_ok_asset_lt (cfg : Config) (c : ℕ → ℕ) (players : List Player)
    (assets : List String) (owners : List BrickOwner) (b : Brick)
    (s s' : PassState)
    (h : processBrick cfg c players assets owners b s = (s', none)) :
    b.asset_name_index < assets.length := by
  by_contra hlen
  have hga : assets.get? b.asset_name_index = none :=
    List.get?_eq_none.2 (by omega)
  unfold processBrick at h
  rw [hga] at h
  simp at h

theorem processBrick_storeGet_str_preserved (cfg : Config) (c : ℕ → ℕ)
    (players : List Player) (assets : List String) (owners : List BrickOwner)
    (b : Brick) (s : PassState) {id : Uuid} {str : String}
    (hget : storeGetFn s.store ("ts:" ++ id) = some (.str str)) :
    storeGetFn (processBrick cfg c players assets owners b s).1.store
      ("ts:" ++ id) = some (.str str) := by
  simp only [processBrick]
  repeat' split
  all_goals first
    | exact hget
    | exact processOwner_storeGet_str_preserved cfg c players _ s hget

theorem processBrick_store_num0 (cfg : Config) (c : ℕ → ℕ)
    (players : List Player) (assets : List String) (owners : List BrickOwner)
    (b : Brick) (s : PassState) (h0 : cfg.clear_after.num = 0) :
    (processBrick cfg c players assets owners b s).1.store = s.store := by
  have hown : ∀ o : BrickOwner, (processOwner cfg c players o s).1.store = s.store := by
    intro o
    rcases processOwner_store_cases cfg c players o s with h | ⟨_, hne, _⟩
    · exact h
    · exact absurd h0 hne
  simp only [processBrick]
  repeat' split
  all_goals first
    | rfl
    | exact hown _

theorem processBrick_effects_storeSet (cfg : Config) (c : ℕ → ℕ)
    (players : List Player) (assets : List String) (owners : List BrickOwner)
    (b : Brick) (s : PassState) {k : String} {v : Value}
    (h : Effect.storeSet k v ∈ (processBrick cfg c players assets owners b s).1.effects) :
    Effect.storeSet k v ∈ s.effects
    ∨ (cfg.clear_after.num ≠ 0
       ∧ ∃ o : BrickOwner, k = "ts:" ++ o.id
           ∧ (∀ str, storeGetFn s.store ("ts:" ++ o.id) ≠ some (.str str))) := by
  revert h
  simp only [processBrick]
  repeat' split
  all_goals intro h
  all_goals first
    | exact Or.inl h
    | (rcases processOwner_effects_cases cfg c players _ s k v h
          with h' | ⟨hk, hnum, hne⟩
       · exact Or.inl h'
       · exact Or.inr ⟨hnum, _, hk, hne⟩)

theorem processBrick_micro_c7 (cfg : Config) (c : ℕ → ℕ)
    (players : List Player) (assets : List String) (owners : List BrickOwner)
    (b : Brick) (s : PassState) {id : Uuid}
    (h0 : cfg.clear_after.num = 0)
    (hget : storeGetFn s.store ("ts:" ++ id) = none)
    (hm : id ∉ s.micro) :
    id ∉ (processBrick cfg c players assets owners b s).1.micro := by
  have hown : ∀ o : BrickOwner, id ∉ (processOwner cfg c players o s).1.micro := by
    intro o hmem
    rcases processOwner_micro_cases cfg c players o s hmem with h | ⟨rfl, _, _, _, hcond⟩
    · exact hm h
    · rcases hcond with ⟨str, ts, hg, _, _⟩ | ⟨_, hnum⟩
      · rw [hget] at hg
        cases hg
      · exact hnum h0
  simp only [processBrick]
  repeat' split
  all_goals first
    | exact hm
    | exact hown _

theorem processBrick_cleared_c8 (cfg : Config) (c : ℕ → ℕ)
    (players : List Player) (assets : List String) (owners : List BrickOwner)
    (b : Brick) (s : PassState) {id : Uuid} {str : String} {T : ℕ}
    (hget : storeGetFn s.store ("ts:" ++ id) = some (.str str))
    (hT : parseU64 str = some T)
    (hclock : ∀ k, c k < T + graceSecs cfg)
    (hc : id ∉ s.cleared) :
    id ∉ (processBrick cfg c players assets owners b s).1.cleared := by
  have hown : ∀ o : BrickOwner, id ∉ (processOwner cfg c players o s).1.cleared := by
    intro o hmem
    rcases processOwner_cleared_cases cfg c players o s hmem with h | ⟨rfl, _, _, _, hcond⟩
    · exact hc h
    · rcases hcond with ⟨str', ts', hg, hp, hge⟩ | ⟨hne, _⟩
      · rw [hget] at hg
        cases hg
        rw [hT] at hp
        cases hp
        exact absurd (hclock s.clk) (by omega)
      · exact hne str hget
  simp only [processBrick]
  repeat' split
  all_goals first
    | exact hc
    | exact hown _

theorem processBrick_resolves (cfg : Config) (c : ℕ → ℕ) (players : List Player)
    (assets : List String) (owners : List BrickOwner) (b : Brick)
    (s : PassState) {id : Uuid}
    (hres : ResolvesTo assets owners b id) :
    ∃ o : BrickOwner, o.id = id
      ∧ processBrick cfg c players assets owners b s
          = processOwner cfg c players o s := by
  obtain ⟨⟨a, hga, hpa⟩, hoi, o, hgo, hoid⟩ := hres
  refine ⟨o, hoid, ?_⟩
  have h0 : ¬b.owner_index = 0 := by omega
  unfold processBrick
  rw [hga, hgo]
  simp [hpa, h0]

/-! ## Brick-scan loop lemmas -/

theorem processBricks_micro_mono (cfg : Config) (c : ℕ → ℕ) (players : List Player)
    (assets : List String) (owners : List BrickOwner) {id : Uuid} :
    ∀ (l : List Brick) (s : PassState), id ∈ s.micro →
      id ∈ (processBricks cfg c players assets owners l s).1.micro := by
  intro l
  induction l with
  | nil => intro s h; exact h
  | cons b rest ih =>
    intro s h
    rcases hb : processBrick cfg c players assets owners b s with ⟨s1, e?⟩
    have hmono := processBrick_micro_mono cfg c players assets owners b s h
    rw [hb] at hmono
    cases e?
    · simp only [processBricks, hb]
      exact ih s1 hmono
    · simp only [processBricks, hb]
      exact hmono

theorem processBricks_cleared_mono (cfg : Config) (c : ℕ → ℕ) (players : List Player)
    (assets : List String) (owners : List BrickOwner) {id : Uuid} :
    ∀ (l : List Brick) (s : PassState), id ∈ s.cleared →
      id ∈ (processBricks cfg c players assets owners l s).1.cleared := by
  intro l
  induction l with
  | nil => intro s h; exact h
  | cons b rest ih =>
    intro s h
    rcases hb : processBrick cfg c players assets owners b s with ⟨s1, e?⟩
    have hmono := processBrick_cleared_mono cfg c players assets owners b s h
    rw [hb] at hmono
    cases e?
    · simp only [processBricks, hb]
      exact ih s1 hmono
    · simp only [processBricks, hb]
      exact hmono

theorem processBricks_inv (cfg : Config) (c : ℕ → ℕ) (players : List Player)
    (assets : List String) (owners : List BrickOwner) :
    ∀ (l : List Brick) (s : PassState), SetsInv s →
      SetsInv (processBricks cfg c players assets owners l s).1 := by
  intro l
  induction l with
  | nil => intro s h; exact h
  | cons b rest ih =>
    intro s h
    rcases hb : processBrick cfg c players assets owners b s with ⟨s1, e?⟩
    have hinv := processBrick_inv cfg c players assets owners b s h
    rw [hb] at hinv
    cases e?
    · simp only [processBricks, hb]
      exact ih s1 hinv
    · simp only [processBricks, hb]
      exact hinv

theorem processBricks_ok_asset_lt (cfg : Config) (c : ℕ → ℕ) (players : List Player)
    (assets : List String) (owners : List BrickOwner) :
    ∀ (l : List Brick) (s s' : PassState),
      processBricks cfg c players assets owners l s = (s', none) →
      ∀ b ∈ l, b.asset_name_index < assets.length := by
  intro l
  induction l with
  | nil => intro s s' _ b hb; cases hb
  | cons b rest ih =>
    intro s s' h b' hmem
    rcases hb : processBrick cfg c players assets owners b s with ⟨s1, e?⟩
    cases e?
    · simp only [processBricks, hb] at h
      rcases List.mem_cons.1 hmem with rfl | hmem
      · exact processBrick_ok_asset_lt cfg c players assets owners b' s s1 hb
      · exact ih s1 s' h b' hmem
    · simp only [processBricks, hb] at h
      cases h

theorem processBricks_store_num0 (cfg : Config) (c : ℕ → ℕ) (players : List Player)
    (assets : List String) (owners : List BrickOwner)
    (h0 : cfg.clear_after.num = 0) :
    ∀ (l : List Brick) (s : PassState),
      (processBricks cfg c players assets owners l s).1.store = s.store := by
  intro l
  induction l with
  | nil => intro s; rfl
  | cons b rest ih =>
    intro s
    rcases hb : processBrick cfg c players assets owners b s with ⟨s1, e?⟩
    have hst := processBrick_store_num0 cfg c players assets owners b s h0
    rw [hb] at hst
    cases e?
    · simp only [processBricks, hb]
      rw [ih s1, hst]
    · simp only [processBricks, hb]
      exact hst

theorem processBricks_no_new_storeSet_num0 (cfg : Config) (c : ℕ → ℕ)
    (players : List Player) (assets : List String) (owners : List BrickOwner)
    (h0 : cfg.clear_after.num = 0) :
    ∀ (l : List Brick) (s : PassState) (k : String) (v : Value),
      Effect.storeSet k v ∈ (processBricks cfg c players assets owners l s).1.effects →
      Effect.storeSet k v ∈ s.effects := by
  intro l
  induction l with
  | nil => intro s k v h; exact h
  | cons b rest ih =>
    intro s k v h
    rcases hb : processBrick cfg c players assets owners b s with ⟨s1, e?⟩
    have hstep : Effect.storeSet k v ∈ s1.effects → Effect.storeSet k v ∈ s.effects := by
      intro hh
      rcases processBrick_effects_storeSet cfg c players assets owners b s
          (by rw [hb]; exact hh) with hh' | ⟨hnum, _⟩
      · exact hh'
      · exact absurd h0 hnum
    cases e?
    · simp only [processBricks, hb] at h
      exact hstep (ih s1 k v h)
    · simp only [processBricks, hb] at h
      exact hstep h

theorem processBricks_micro_c7 (cfg : Config) (c : ℕ → ℕ) (players : List Player)
    (assets : List String) (owners : List BrickOwner) {id : Uuid}
    (h0 : cfg.clear_after.num = 0) :
    ∀ (l : List Brick) (s : PassState),
      storeGetFn s.store ("ts:" ++ id) = none → id ∉ s.micro →
      id ∉ (processBricks cfg c players assets owners l s).1.micro := by
  intro l
  induction l with
  | nil => intro s _ hm; exact hm
  | cons b rest ih =>
    intro s hget hm
    rcases hb : processBrick cfg c players assets owners b s with ⟨s1, e?⟩
    have hm1 : id ∉ s1.micro := by
      have := processBrick_micro_c7 cfg c players assets owners b s h0 hget hm
      rw [hb] at this
      exact this
    have hget1 : storeGetFn s1.store ("ts:" ++ id) = none := by
      have := processBrick_store_num0 cfg c players assets owners b s h0
      rw [hb] at this
      rw [this]
      exact hget
    cases e?
    · simp only [processBricks, hb]
      exact ih s1 hget1 hm1
    · simp only [processBricks, hb]
      exact hm1

theorem processBricks_clears_c7 (cfg : Config) (c : ℕ → ℕ) (players : List Player)
    (assets : List String) (owners : List BrickOwner) {id : Uuid}
    (h0 : cfg.clear_after.num = 0) (hp : id ≠ PUBLIC_ID) :
    ∀ (l : List Brick) (s s' : PassState),
      processBricks cfg c players assets owners l s = (s', none) →
      storeGetFn s.store ("ts:" ++ id) = none → id ∉ s.micro →
      (∃ b ∈ l, ResolvesTo assets owners b id) →
      id ∈ s'.cleared := by
  intro l
  induction l with
  | nil => intro s s' _ _ _ hex; simp at hex
  | cons b rest ih =>
    intro s s' h hget hm hex
    rcases hb : processBrick cfg c players assets owners b s with ⟨s1, e?⟩
    cases e?
    case some e => simp only [processBricks, hb] at h; cases h
    case none =>
    simp only [processBricks, hb] at h
    have hm1 : id ∉ s1.micro := by
      have := processBrick_micro_c7 cfg c players assets owners b s h0 hget hm
      rw [hb] at this
      exact this
    have hget1 : storeGetFn s1.store ("ts:" ++ id) = none := by
      have := processBrick_store_num0 cfg c players assets owners b s h0
      rw [hb] at this
      rw [this]
      exact hget
    rcases hex with ⟨b', hmem, hres⟩
    rcases List.mem_cons.1 hmem with rfl | hmem
    · by_cases hc : id ∈ s.cleared
      · have h2 : id ∈ s1.cleared := by
          have := processBrick_cleared_mono cfg c players assets owners b' s hc
          rw [hb] at this
          exact this
        have h3 := processBricks_cleared_mono cfg c players assets owners rest s1 h2
        rw [h] at h3
        exact h3
      · rcases processBrick_resolves cfg c players assets owners b' s hres
            with ⟨o, hoid, heq⟩
        have h1 : id ∈ s1.cleared := by
          have := processOwner_clears_fresh cfg c players o s hoid hm hc hp hget h0
          rw [← heq, hb] at this
          exact this
        have h3 := processBricks_cleared_mono cfg c players assets owners rest s1 h1
        rw [h] at h3
        exact h3
    · exact ih s1 s' h hget1 hm1 ⟨b', hmem, hres⟩

theorem processBricks_storeGet_str (cfg : Config) (c : ℕ → ℕ) (players : List Player)
    (assets : List String) (owners : List BrickOwner) {id : Uuid} {str : String} :
    ∀ (l : List Brick) (s : PassState),
      storeGetFn s.store ("ts:" ++ id) = some (.str str) →
      storeGetFn (processBricks cfg c players assets owners l s).1.store ("ts:" ++ id)
        = some (.str str) := by
  intro l
  induction l with
  | nil => intro s h; exact h
  | cons b rest ih =>
    intro s hget
    rcases hb : processBrick cfg c players assets owners b s with ⟨s1, e?⟩
    have hget1 : storeGetFn s1.store ("ts:" ++ id) = some (.str str) := by
      have := processBrick_storeGet_str_preserved cfg c players assets owners b s hget
      rw [hb] at this
      exact this
    cases e?
    · simp only [processBricks, hb]
      exact ih s1 hget1
    · simp only [processBricks, hb]
      exact hget1

theorem processBricks_not_cleared_c8 (cfg : Config) (c : ℕ → ℕ)
    (players : List Player) (assets : List String) (owners : List BrickOwner)
    {id : Uuid} {str : String} {T : ℕ}
    (hT : parseU64 str = some T) (hclock : ∀ k, c k < T + graceSecs cfg) :
    ∀ (l : List Brick) (s : PassState),
      storeGetFn s.store ("ts:" ++ id) = some (.str str) → id ∉ s.cleared →
      id ∉ (processBricks cfg c players assets owners l s).1.cleared := by
  intro l
  induction l with
  | nil => intro s _ hc; exact hc
  | cons b rest ih =>
    intro s hget hc
    rcases hb : processBrick cfg c players assets owners b s with ⟨s1, e?⟩
    have hget1 : storeGetFn s1.store ("ts:" ++ id) = some (.str str) := by
      have := processBrick_storeGet_str_preserved cfg c players assets owners b s hget
      rw [hb] at this
      exact this
    have hc1 : id ∉ s1.cleared := by
      have := processBrick_cleared_c8 cfg c players assets owners b s hget hT hclock hc
      rw [hb] at this
      exact this
    cases e?
    · simp only [processBricks, hb]
      exact ih s1 hget1 hc1
    · simp only [processBricks, hb]
      exact hc1

theorem processBricks_no_ts_set_c8 (cfg : Config) (c : ℕ → ℕ)
    (players : List Player) (assets : List String) (owners : List BrickOwner)
    {id : Uuid} {str : String} :
    ∀ (l : List Brick) (s : PassState),
      storeGetFn s.store ("ts:" ++ id) = some (.str str) →
      ∀ v : Value,
        Effect.storeSet ("ts:" ++ id) v
            ∈ (processBricks cfg c players assets owners l s).1.effects →
        Effect.storeSet ("ts:" ++ id) v ∈ s.effects := by
  intro l
  induction l with
  | nil => intro s _ v h; exact h
  | cons b rest ih =>
    intro s hget v h
    rcases hb : processBrick cfg c players assets owners b s with ⟨s1, e?⟩
    have hget1 : storeGetFn s1.store ("ts:" ++ id) = some (.str str) := by
      have := processBrick_storeGet_str_preserved cfg c players assets owners b s hget
      rw [hb] at this
      exact this
    have hstep : Effect.storeSet ("ts:" ++ id) v ∈ s1.effects →
        Effect.storeSet ("ts:" ++ id) v ∈ s.effects := by
      intro hh
      rcases processBrick_effects_storeSet cfg c players assets owners b s
          (by rw [hb]; exact hh) with hh' | ⟨_, o, hk, hne⟩
      · exact hh'
      · have hoid : o.id = id := (ts_key_inj hk).symm
        rw [hoid] at hne
        exact absurd hget (hne str)
    cases e?
    · simp only [processBricks, hb] at h
      exact hstep (ih s1 hget1 v h)
    · simp only [processBricks, hb] at h
      exact hstep h

theorem processBricks_warns_c8 (cfg : Config) (c : ℕ → ℕ) (players : List Player)
    (assets : List String) (owners : List BrickOwner) {id : Uuid} {str : String}
    {T : ℕ} (hT : parseU64 str = some T)
    (hclock : ∀ k, c k < T + graceSecs cfg) (hp : id ≠ PUBLIC_ID) :
    ∀ (l : List Brick) (s s' : PassState),
      processBricks cfg c players assets owners l s = (s', none) →
      storeGetFn s.store ("ts:" ++ id) = some (.str str) → id ∉ s.cleared →
      (∃ b ∈ l, ResolvesTo assets owners b id) →
      id ∈ s'.micro := by
  intro l
  induction l with
  | nil => intro s s' _ _ _ hex; simp at hex
  | cons b rest ih =>
    intro s s' h hget hc hex
    rcases hb : processBrick cfg c players assets owners b s with ⟨s1, e?⟩
    cases e?
    case some e => simp only [processBricks, hb] at h; cases h
    case none =>
    simp only [processBricks, hb] at h
    have hget1 : storeGetFn s1.store ("ts:" ++ id) = some (.str str) := by
      have := processBrick_storeGet_str_preserved cfg c players assets owners b s hget
      rw [hb] at this
      exact this
    have hc1 : id ∉ s1.cleared := by
      have := processBrick_cleared_c8 cfg c players assets owners b s hget hT hclock hc
      rw [hb] at this
      exact this
    rcases hex with ⟨b', hmem, hres⟩
    rcases List.mem_cons.1 hmem with rfl | hmem
    · by_cases hm : id ∈ s.micro
      · have h2 : id ∈ s1.micro := by
          have := processBrick_micro_mono cfg c players assets owners b' s hm
          rw [hb] at this
          exact this
        have h3 := processBricks_micro_mono cfg c players assets owners rest s1 h2
        rw [h] at h3
        exact h3
      · rcases processBrick_resolves cfg c players assets owners b' s hres
            with ⟨o, hoid, heq⟩
        have h1 : id ∈ s1.micro := by
          have := processOwner_warns_unexpired cfg c players o s hoid hm hc hp hget
            hT (hclock s.clk)
          rw [← heq, hb] at this
          exact this
        have h3 := processBricks_micro_mono cfg c players assets owners rest s1 h1
        rw [h] at h3
        exact h3
    · exact ih s1 s' h hget1 hc1 ⟨b', hmem, hres⟩

/-! ## Enforcement-loop lemmas -/

theorem enforceOwner_sets (cfg : Config) (i : Uuid) (s : PassState) :
    (enforceOwner cfg i s).1.micro = s.micro
    ∧ (enforceOwner cfg i s).1.cleared = s.cleared := by
  simp only [enforceOwner]
  repeat' split
  all_goals simp_all

theorem enforceOwner_storeGet_ts (cfg : Config) (i : Uuid) (s : PassState)
    (id : Uuid) :
    storeGetFn (enforceOwner cfg i s).1.store ("ts:" ++ id)
      = storeGetFn s.store ("ts:" ++ id) := by
  simp only [enforceOwner]
  repeat' split
  all_goals first
    | rfl
    | (rw [storeGet_set_ne _ _ (ts_key_ne_bans id i),
           storeGet_set_ne _ _ (ts_key_ne_violations id i)])
    | rw [storeGet_set_ne _ _ (ts_key_ne_violations id i)]

theorem enforceOwner_effects_storeSet (cfg : Config) (i : Uuid) (s : PassState)
    (k : String) (v : Value)
    (h : Effect.storeSet k v ∈ (enforceOwner cfg i s).1.effects) :
    Effect.storeSet k v ∈ s.effects
    ∨ k = "violations:" ++ i ∨ k = "bans:" ++ i := by
  revert h
  simp only [enforceOwner]
  repeat' split
  all_goals intro h
  all_goals simp_all [List.mem_append]
  all_goals tauto

theorem enforceOwners_sets (cfg : Config) :
    ∀ (ids : List Uuid) (s : PassState),
      (enforceOwners cfg ids s).1.micro = s.micro
      ∧ (enforceOwners cfg ids s).1.cleared = s.cleared := by
  intro ids
  induction ids with
  | nil => intro s; exact ⟨rfl, rfl⟩
  | cons i rest ih =>
    intro s
    rcases hb : enforceOwner cfg i s with ⟨s1, e?⟩
    have hsets := enforceOwner_sets cfg i s
    rw [hb] at hsets
    cases e?
    · simp only [enforceOwners, hb]
      rcases ih s1 with ⟨h1, h2⟩
      exact ⟨h1.trans hsets.1, h2.trans hsets.2⟩
    · simp only [enforceOwners, hb]
      exact hsets

theorem enforceOwners_storeGet_ts (cfg : Config) (id : Uuid) :
    ∀ (ids : List Uuid) (s : PassState),
      storeGetFn (enforceOwners cfg ids s).1.store ("ts:" ++ id)
        = storeGetFn s.store ("ts:" ++ id) := by
  intro ids
  induction ids with
  | nil => intro s; rfl
  | cons i rest ih =>
    intro s
    rcases hb : enforceOwner cfg i s with ⟨s1, e?⟩
    have hst := enforceOwner_storeGet_ts cfg i s id
    rw [hb] at hst
    cases e?
    · simp only [enforceOwners, hb]
      exact (ih s1).trans hst
    · simp only [enforceOwners, hb]
      exact hst

theorem enforceOwners_ts_effects (cfg : Config) (id : Uuid) :
    ∀ (ids : List Uuid) (s : PassState) (v : Value),
      Effect.storeSet ("ts:" ++ id) v ∈ (enforceOwners cfg ids s).1.effects →
      Effect.storeSet ("ts:" ++ id) v ∈ s.effects := by
  intro ids
  induction ids with
  | nil => intro s v h; exact h
  | cons i rest ih =>
    intro s v h
    rcases hb : enforceOwner cfg i s with ⟨s1, e?⟩
    have hstep : Effect.storeSet ("ts:" ++ id) v ∈ s1.effects →
        Effect.storeSet ("ts:" ++ id) v ∈ s.effects := by
      intro hh
      rcases enforceOwner_effects_storeSet cfg i s _ v (by rw [hb]; exact hh)
          with hh' | hk | hk
      · exact hh'
      · exact absurd hk (ts_key_ne_violations id i)
      · exact absurd hk (ts_key_ne_bans id i)
    cases e?
    · simp only [enforceOwners, hb] at h
      exact hstep (ih s1 v h)
    · simp only [enforceOwners, hb] at h
      exact hstep h

/-! ## Reconciliation lemmas -/

theorem reconcileGo_sets :
    ∀ (keys : List String) (s : PassState),
      (reconcileGo keys s).micro = s.micro
      ∧ (reconcileGo keys s).cleared = s.cleared := by
  intro keys
  induction keys with
  | nil => intro s; exact ⟨rfl, rfl⟩
  | cons k rest ih =>
    intro s
    simp only [reconcileGo]
    split
    · exact ih s
    · split
      · exact ih _
      · exact ih s

theorem reconcileGo_preserve_absent {key : String} :
    ∀ (keys : List String) (s : PassState),
      storeGetFn s.store key = none →
      storeGetFn (reconcileGo keys s).store key = none := by
  intro keys
  induction keys with
  | nil => intro s h; exact h
  | cons k rest ih =>
    intro s h
    simp only [reconcileGo]
    split
    · exact ih s h
    · split
      · refine ih _ ?_
        rename_i idStr _ _
        by_cases hk : key = "ts:" ++ idStr
        · rw [hk]
          exact storeGet_remove_self _ _
        · rw [storeGet_remove_ne _ hk]
          exact h
      · exact ih s h

theorem reconcileGo_no_storeSet :
    ∀ (keys : List String) (s : PassState) (k : String) (v : Value),
      Effect.storeSet k v ∈ (reconcileGo keys s).effects →
      Effect.storeSet k v ∈ s.effects := by
  intro keys
  induction keys with
  | nil => intro s k v h; exact h
  | cons key rest ih =>
    intro s k v h
    revert h
    simp only [reconcileGo]
    split
    · exact ih s k v
    · split
      · intro h
        have := ih _ k v h
        simp [List.mem_append] at this
        exact this
      · exact ih s k v

theorem reconcileGo_deletes {id : Uuid} :
    ∀ (keys : List String) (s : PassState),
      ("ts:" ++ id) ∈ keys →
      (id ∈ s.cleared ∨ id ∉ s.micro) →
      storeGetFn (reconcileGo keys s).store ("ts:" ++ id) = none := by
  intro keys
  induction keys with
  | nil => intro s h; cases h
  | cons k rest ih =>
    intro s hmem hcond
    rcases List.mem_cons.1 hmem with heq | hmem'
    · subst heq
      simp only [reconcileGo, stripTs_ts_key]
      have hcondb : (s.cleared.contains id || !s.micro.contains id) = true := by
        rcases hcond with h | h <;> simp [h]
      rw [if_pos hcondb]
      exact reconcileGo_preserve_absent rest _ (storeGet_remove_self _ _)
    · simp only [reconcileGo]
      split
      · exact ih s hmem' hcond
      · split
        · exact ih _ hmem' hcond
        · exact ih s hmem' hcond

theorem reconcileGo_keeps {id : Uuid} :
    ∀ (keys : List String) (s : PassState),
      id ∈ s.micro → id ∉ s.cleared →
      storeGetFn (reconcileGo keys s).store ("ts:" ++ id)
        = storeGetFn s.store ("ts:" ++ id) := by
  intro keys
  induction keys with
  | nil => intro s _ _; rfl
  | cons k rest ih =>
    intro s hm hc
    simp only [reconcileGo]
    split
    · exact ih s hm hc
    · rename_i idStr hstrip
      split
      · rename_i hcond
        have hne : idStr ≠ id := by
          intro heq
          subst heq
          simp [hm, hc] at hcond
        have h2 := ih { s with
            store := storeRemoveFn s.store ("ts:" ++ idStr),
            effects := s.effects ++ [Effect.storeDelete ("ts:" ++ idStr)] }
          hm hc
        refine h2.trans ?_
        exact storeGet_remove_ne _ (fun hk => hne (ts_key_inj hk).symm)
      · exact ih s hm hc

/-! ## Whole-pass decomposition -/

theorem SetsInv_of_eq {a b : PassState} (hm : a.micro = b.micro)
    (hc : a.cleared = b.cleared) (h : SetsInv b) : SetsInv a := by
  unfold SetsInv at h ⊢
  rw [hm, hc]
  exact h

theorem initState_inv (store0 : Store) :
    SetsInv ⟨[], [], store0, [], 0⟩ := by
  refine ⟨?_, ?_, ?_⟩ <;> simp

/-- Successful-pass decomposition: a pass that returns `.ok` either stopped
at the dictionary pre-check, or ran every stage to completion. -/
theorem check_save_ok_elim {cfg : Config} {c : ℕ → ℕ} {players : List Player}
    {assets : List String} {owners : List BrickOwner} {bricks : List Brick}
    {store0 : Store} {s : PassState} {out : Option (List Brick)}
    (h : check_save cfg c players assets owners bricks store0 = (s, .ok out)) :
    (s = ⟨[], [], store0, [], 0⟩ ∧ out = none
      ∧ assets.any prohibitedAsset = false)
    ∨ ∃ (s1 s2 : PassState) (bricks1 bricks2 : List Brick),
        assets.any prohibitedAsset = true
        ∧ processBricks cfg c players assets owners bricks ⟨[], [], store0, [], 0⟩
            = (s1, none)
        ∧ enforceOwners cfg s1.cleared s1 = (s2, none)
        ∧ filterE (retainOwner owners s2.cleared) bricks = .ok bricks1
        ∧ filterE (retainNonMicro assets) bricks1 = .ok bricks2
        ∧ out = some bricks2
        ∧ s = reconcileGo (storeKeysFn s2.store)
            { s2 with effects := s2.effects ++ [.writeSave bricks2, .loadBricks] } := by
  simp only [check_save] at h
  cases hpre : assets.any prohibitedAsset with
  | false =>
    rw [hpre] at h
    simp only [Bool.not_false, if_true] at h
    left
    injection h with h1 h2
    injection h2 with h3
    exact ⟨h1.symm, h3.symm, rfl⟩
  | true =>
    rw [hpre] at h
    simp only [Bool.not_true, Bool.false_eq_true, if_false] at h
    right
    rcases hpb : processBricks cfg c players assets owners bricks
        ⟨[], [], store0, [], 0⟩ with ⟨s1, e?⟩
    simp only [hpb] at h
    cases e?
    case some e => simp at h
    case none =>
    rcases hen : enforceOwners cfg s1.cleared s1 with ⟨s2, e2?⟩
    simp only [hen] at h
    cases e2?
    case some e => simp at h
    case none =>
    rcases hf1 : filterE (retainOwner owners s2.cleared) bricks with e | bricks1
    · simp only [hf1] at h
      simp at h
    · simp only [hf1] at h
      rcases hf2 : filterE (retainNonMicro assets) bricks1 with e | bricks2
      · simp only [hf2] at h
        simp at h
      · simp only [hf2] at h
        injection h with h1 h2
        injection h2 with h3
        exact ⟨s1, s2, bricks1, bricks2, rfl, rfl, hen, hf1, hf2, h3.symm, h1.symm⟩

/-- The final state of a pass has the same `micro`/`cleared` sets as the
state after the brick scan (the later stages never modify them), except for
the dictionary-pre-check early exit, whose state is the empty initial one. -/
theorem check_save_sets_eq (cfg : Config) (c : ℕ → ℕ) (players : List Player)
    (assets : List String) (owners : List BrickOwner) (bricks : List Brick)
    (store0 : Store) :
    ((check_save cfg c players assets owners bricks store0).1.micro
        = (processBricks cfg c players assets owners bricks
            ⟨[], [], store0, [], 0⟩).1.micro
      ∧ (check_save cfg c players assets owners bricks store0).1.cleared
        = (processBricks cfg c players assets owners bricks
            ⟨[], [], store0, [], 0⟩).1.cleared)
    ∨ (check_save cfg c players assets owners bricks store0).1
        = ⟨[], [], store0, [], 0⟩ := by
  rcases hres : check_save cfg c players assets owners bricks store0 with ⟨sf, outf⟩
  simp only [check_save] at hres
  cases hpre : assets.any prohibitedAsset with
  | false =>
    rw [hpre] at hres
    simp only [Bool.not_false, if_true] at hres
    right
    exact (congrArg Prod.fst hres).symm
  | true =>
    rw [hpre] at hres
    simp only [Bool.not_true, Bool.false_eq_true, if_false] at hres
    left
    rcases hpb : processBricks cfg c players assets owners bricks
        ⟨[], [], store0, [], 0⟩ with ⟨s1, e?⟩
    simp only [hpb] at hres
    cases e?
    case some e =>
      have h1 := (congrArg Prod.fst hres).symm
      exact ⟨congrArg PassState.micro h1, congrArg PassState.cleared h1⟩
    case none =>
    rcases hen : enforceOwners cfg s1.cleared s1 with ⟨s2, e2?⟩
    have hsets := enforceOwners_sets cfg s1.cleared s1
    rw [hen] at hsets
    simp only [hen] at hres
    cases e2?
    case some e =>
      have h1 : sf = s2 := (congrArg Prod.fst hres).symm
      rw [h1]
      exact ⟨hsets.1, hsets.2⟩
    case none =>
    rcases hf1 : filterE (retainOwner owners s2.cleared) bricks with e | bricks1
    · simp only [hf1] at hres
      have h1 : sf = s2 := (congrArg Prod.fst hres).symm
      rw [h1]
      exact ⟨hsets.1, hsets.2⟩
    · simp only [hf1] at hres
      rcases hf2 : filterE (retainNonMicro assets) bricks1 with e | bricks2
      · simp only [hf2] at hres
        have h1 : sf = s2 := (congrArg Prod.fst hres).symm
        rw [h1]
        exact ⟨hsets.1, hsets.2⟩
      · simp only [hf2] at hres
        have h1 := (congrArg Prod.fst hres).symm
        have hrg := reconcileGo_sets
          (storeKeysFn { s2 with effects := s2.effects
            ++ [Effect.writeSave bricks2, Effect.loadBricks] }.store)
          { s2 with effects := s2.effects
            ++ [Effect.writeSave bricks2, Effect.loadBricks] }
        rw [h1]
        exact ⟨hrg.1.trans hsets.1, hrg.2.trans hsets.2⟩

/-! ## C4 — disjointness and sentinel-freedom of the per-pass sets -/

/-- C4. For every pass and input snapshot, `microOwners` and `clearedOwners`
are disjoint and never contain the public sentinel id: the invariant holds
for any brick-scan prefix started from any invariant state (hence at every
point of the scan, which is the only stage that grows the sets), and for the
final state of the whole pass. -/
theorem c4_disjoint_sentinel_free (cfg : Config) (c : ℕ → ℕ)
    (players : List Player) (assets : List String) (owners : List BrickOwner)
    (bricks : List Brick) (store0 : Store) (l : List Brick) (s : PassState)
    (h : SetsInv s) :
    SetsInv (processBricks cfg c players assets owners l s).1
    ∧ SetsInv (check_save cfg c players assets owners bricks store0).1 := by
  refine ⟨processBricks_inv cfg c players assets owners l s h, ?_⟩
  rcases check_save_sets_eq cfg c players assets owners bricks store0 with
    ⟨hm, hc⟩ | heq
  · exact SetsInv_of_eq hm hc
      (processBricks_inv cfg c players assets owners bricks _ (initState_inv store0))
  · rw [heq]
    exact initState_inv store0

/-! ## Retain-predicate characterizations -/

theorem retainOwner_ok_true_iff (owners : List BrickOwner) (cl : List Uuid)
    (b : Brick) :
    retainOwner owners cl b = .ok true ↔
      (1 ≤ b.owner_index
       ∧ ∃ o, owners.get? (b.owner_index - 1) = some o ∧ o.id ∈ cl) := by
  unfold retainOwner
  by_cases h0 : b.owner_index = 0
  · rw [if_pos h0]
    simp [h0]
  · rw [if_neg h0]
    cases hg : owners.get? (b.owner_index - 1) with
    | none => simp
    | some o => simp [Nat.one_le_iff_ne_zero, h0]

theorem retainNonMicro_ok_true_iff (assets : List String) (b : Brick) :
    retainNonMicro assets b = .ok true ↔
      ∃ a, assets.get? b.asset_name_index = some a ∧ prohibitedAsset a = false := by
  unfold retainNonMicro
  cases hg : assets.get? b.asset_name_index with
  | none => simp
  | some a => simp

/-! ## C3 — the rewritten snapshot -/

/-- C3. A successfully rewritten snapshot contains exactly the original
bricks whose owner index is positive and dereferences to an owner in the
finalized `clearedOwners` set and whose asset name is not prohibited; in
particular no brick of a non-cleared owner and no owner-index-0 brick
appears (`src/main.rs:299`–`305`). -/
theorem c3_rewritten_snapshot {cfg : Config} {c : ℕ → ℕ} {players : List Player}
    {assets : List String} {owners : List BrickOwner} {bricks : List Brick}
    {store0 : Store} {s : PassState} {bs : List Brick}
    (h : check_save cfg c players assets owners bricks store0 = (s, .ok (some bs))) :
    ∀ b : Brick, b ∈ bs ↔
      (b ∈ bricks ∧ 1 ≤ b.owner_index
       ∧ (∃ o, owners.get? (b.owner_index - 1) = some o ∧ o.id ∈ s.cleared)
       ∧ (∃ a, assets.get? b.asset_name_index = some a ∧ prohibitedAsset a = false)) := by
  rcases check_save_ok_elim h with ⟨_, hout, _⟩ |
    ⟨s1, s2, bricks1, bricks2, hany, hpb, hen, hf1, hf2, hout, hs⟩
  · exact absurd hout (by simp)
  · have hbs : bs = bricks2 := by
      injection hout with h1
    subst hbs
    have hs_cl : s.cleared = s2.cleared := by
      rw [hs]
      exact (reconcileGo_sets _ _).2
    intro b
    rw [hs_cl]
    rw [filterE_ok_mem hf2 b, filterE_ok_mem hf1 b]
    rw [retainOwner_ok_true_iff, retainNonMicro_ok_true_iff]
    tauto

/-! ## C1 — bounds behaviour of the dictionary dereferences -/

def assetsMicroPlate : List String := ["MicroBrick", "Plate"]

def ownersA : List BrickOwner := [⟨idA, "A"⟩]

/-- A non-prohibited brick whose owner index is out of range, followed by a
prohibited brick of owner A whose timer has long expired. -/
def bricksOwnerOOB : List Brick := [⟨1, 5, 0⟩, ⟨0, 1, 1⟩]

def storeA0 : Store := [("ts:" ++ idA, .str "0")]

/-- C1 (counterexample). The claim's parenthetical "(no enforcement action
is applied)" is false: an out-of-range `ownerIndex` on a *non-prohibited*
brick is only dereferenced during the snapshot rewrite (`src/main.rs:299`),
after the enforcement loop has already run, so this pass aborts with the
bounds error *and* has already applied enforcement (`clear_bricks` was
invoked for owner A). -/
theorem c1_enforcement_before_bounds_error :
    (check_save cfg1 (fun _ => 1000) [] assetsMicroPlate ownersA bricksOwnerOOB storeA0).2
        = .error (.ownerIndexOOB 5)
    ∧ Effect.clearBricks idA
        ∈ (check_save cfg1 (fun _ => 1000) [] assetsMicroPlate ownersA bricksOwnerOOB storeA0).1.effects
    ∧ (⟨1, 5, 0⟩ : Brick) ∈ bricksOwnerOOB ∧ ownersA.length < 5 := by
  decide

/-- C1 (amended). In a pass that reaches brick scanning, any out-of-range
`assetIndex` or `ownerIndex` among the bricks makes the pass abort with an
error — it is never silently skipped — though enforcement actions may
already have been applied when the error is only detected in the rewrite
stage. -/
theorem c1_out_of_range_aborts (cfg : Config) (c : ℕ → ℕ)
    (players : List Player) (assets : List String) (owners : List BrickOwner)
    (bricks : List Brick) (store0 : Store)
    (hany : assets.any prohibitedAsset = true)
    (hbad : ∃ b ∈ bricks, assets.length ≤ b.asset_name_index
        ∨ owners.length < b.owner_index) :
    ∃ e, (check_save cfg c players assets owners bricks store0).2 = .error e := by
  rcases hres : check_save cfg c players assets owners bricks store0 with ⟨sf, out⟩
  cases out with
  | error e => exact ⟨e, rfl⟩
  | ok v =>
    exfalso
    rcases check_save_ok_elim hres with ⟨_, _, hpre⟩ |
      ⟨s1, s2, b1, b2, _, hpb, hen, hf1, hf2, _, _⟩
    · rw [hany] at hpre
      cases hpre
    · rcases hbad with ⟨b, hmem, hasset | howner⟩
      · have := processBricks_ok_asset_lt cfg c players assets owners bricks
          _ _ hpb b hmem
        omega
      · rcases filterE_ok_forall hf1 b hmem with ⟨bl, hbl⟩
        have hne0 : ¬b.owner_index = 0 := by omega
        have hnone : owners.get? (b.owner_index - 1) = none :=
          List.get?_eq_none.2 (by omega)
        unfold retainOwner at hbl
        rw [if_neg hne0, hnone] at hbl
        cases hbl

/-- C1 (witness for the amended theorem). -/
theorem c1_out_of_range_aborts_witness :
    ∃ e, (check_save cfg1 (fun _ => 1000) [] assetsMicroPlate ownersA
      bricksOwnerOOB storeA0).2 = .error e :=
  c1_out_of_range_aborts cfg1 (fun _ => 1000) [] assetsMicroPlate ownersA
    bricksOwnerOOB storeA0 (by decide)
    ⟨⟨1, 5, 0⟩, by decide, Or.inr (by decide)⟩

/-- C4 (witness). -/
theorem c4_disjoint_sentinel_free_witness :
    SetsInv (processBricks cfg1 clockConst150 [] assetsMicroOnly ownersAB bricksAB
      ⟨[], [], storeAB, [], 0⟩).1
    ∧ SetsInv (check_save cfg1 clockConst150 [] assetsMicroOnly ownersAB bricksAB
      storeAB).1 :=
  c4_disjoint_sentinel_free cfg1 clockConst150 [] assetsMicroOnly ownersAB
    bricksAB storeAB bricksAB ⟨[], [], storeAB, [], 0⟩ (initState_inv storeAB)

/-- Owner A's prohibited brick followed by A's ordinary brick. -/
def bricksMP : List Brick := [⟨0, 1, 0⟩, ⟨1, 1, 1⟩]

/-- The final state of the pass on `bricksMP` with A's timer expired. -/
def finalStateMP : PassState :=
  ⟨[], [idA],
   [("violations:" ++ idA, .int 1)],
   [.broadcast (clearingMsg "A"), .clearBricks idA,
    .logLine ("Clearing bricks of " ++ idA ++ " (1 violations)"),
    .storeSet ("violations:" ++ idA) (.int 1),
    .whisper idA (statusMsg 1 3),
    .writeSave [⟨1, 1, 1⟩], .loadBricks,
    .storeDelete ("ts:" ++ idA)], 1⟩

/-- C3 (witness): with A's timer expired, A is cleared and the rewritten
snapshot keeps exactly A's non-prohibited brick. -/
theorem c3_rewritten_snapshot_witness :
    check_save cfg1 (fun _ => 1000) [] assetsMicroPlate ownersA bricksMP storeA0
      = (finalStateMP, .ok (some [⟨1, 1, 1⟩]))
    ∧ ∀ b : Brick, b ∈ [(⟨1, 1, 1⟩ : Brick)] ↔
        (b ∈ bricksMP ∧ 1 ≤ b.owner_index
         ∧ (∃ o, ownersA.get? (b.owner_index - 1) = some o ∧ o.id ∈ finalStateMP.cleared)
         ∧ (∃ a, assetsMicroPlate.get? b.asset_name_index = some a
             ∧ prohibitedAsset a = false)) :=
  ⟨by decide,
   @c3_rewritten_snapshot cfg1 (fun _ => 1000) [] assetsMicroPlate ownersA
     bricksMP storeA0 finalStateMP [⟨1, 1, 1⟩] (by decide)⟩

/-! ## C6 — reconciliation deletes exactly the non-reconfirmed timers -/

/-- C6. (a) The reconciliation sweep over the listed timer keys deletes a
present timer `ts:<id>` iff `id` is in `clearedOwners` or not in
`microOwners` (`src/main.rs:332`–`340`); (b) consequently, at the end of
every pass that ran to completion, no timer of a cleared or non-warned
owner survives in the store. -/
theorem c6_reconciliation :
    (∀ (s : PassState) (id : Uuid),
        ("ts:" ++ id) ∈ storeKeysFn s.store →
        (storeGetFn (reconcileGo (storeKeysFn s.store) s).store ("ts:" ++ id) = none
          ↔ (id ∈ s.cleared ∨ id ∉ s.micro)))
    ∧ (∀ (cfg : Config) (c : ℕ → ℕ) (players : List Player)
        (assets : List String) (owners : List BrickOwner) (bricks : List Brick)
        (store0 : Store) (s : PassState) (bs : List Brick),
        check_save cfg c players assets owners bricks store0 = (s, .ok (some bs)) →
        ∀ id : Uuid, (id ∈ s.cleared ∨ id ∉ s.micro) →
        storeGetFn s.store ("ts:" ++ id) = none) := by
  constructor
  · intro s id hmem
    constructor
    · intro hdel
      by_contra hcond
      push_neg at hcond
      have hkeep := reconcileGo_keeps (storeKeysFn s.store) s hcond.2 hcond.1
      rcases storeGet_isSome_of_mem_keys s.store hmem with ⟨v, hv⟩
      rw [hdel, hv] at hkeep
      cases hkeep
    · intro hcond
      exact reconcileGo_deletes (storeKeysFn s.store) s hmem hcond
  · intro cfg c players assets owners bricks store0 s bs h id hcond
    rcases check_save_ok_elim h with ⟨_, hout, _⟩ |
      ⟨s1, s2, b1, b2, _, hpb, hen, hf1, hf2, hout, hs⟩
    · exact absurd hout (by simp)
    · have hm3 : s.micro = s2.micro := by
        rw [hs]
        exact (reconcileGo_sets _ _).1
      have hc3 : s.cleared = s2.cleared := by
        rw [hs]
        exact (reconcileGo_sets _ _).2
      by_cases hmem : ("ts:" ++ id) ∈ storeKeysFn s2.store
      · rw [hs]
        refine reconcileGo_deletes _ _ hmem ?_
        rcases hcond with hcl | hmic
        · rw [hc3] at hcl
          exact Or.inl hcl
        · rw [hm3] at hmic
          exact Or.inr hmic
      · have habs : storeGetFn s2.store ("ts:" ++ id) = none :=
          storeGet_none_of_not_mem_keys _ hmem
        rw [hs]
        exact reconcileGo_preserve_absent _ _ habs

/-- C6 (witness). -/
theorem c6_reconciliation_witness :
    (storeGetFn (reconcileGo
        (storeKeysFn (⟨[], [idA], [("ts:" ++ idA, .str "5")], [], 0⟩ : PassState).store)
        ⟨[], [idA], [("ts:" ++ idA, .str "5")], [], 0⟩).store ("ts:" ++ idA) = none
      ↔ (idA ∈ (⟨[], [idA], [("ts:" ++ idA, .str "5")], [], 0⟩ : PassState).cleared
         ∨ idA ∉ (⟨[], [idA], [("ts:" ++ idA, .str "5")], [], 0⟩ : PassState).micro))
    ∧ ∃ (s : PassState) (bs : List Brick),
        check_save cfg1 (fun _ => 1000) [] assetsMicroPlate ownersA bricksMP storeA0
          = (s, .ok (some bs))
        ∧ storeGetFn s.store ("ts:" ++ idA) = none :=
  ⟨c6_reconciliation.1 ⟨[], [idA], [("ts:" ++ idA, .str "5")], [], 0⟩ idA (by decide),
   finalStateMP, [⟨1, 1, 1⟩], by decide,
   c6_reconciliation.2 cfg1 (fun _ => 1000) [] assetsMicroPlate ownersA bricksMP
     storeA0 finalStateMP [⟨1, 1, 1⟩] (by decide) idA (by decide)⟩

/-! ## C7 — zero grace period clears immediately, no timer written -/

theorem viol_any_prohibited {assets : List String} {owners : List BrickOwner}
    {bricks : List Brick} {id : Uuid}
    (hviol : ∃ b ∈ bricks, ResolvesTo assets owners b id) :
    assets.any prohibitedAsset = true := by
  rcases hviol with ⟨b, _, ⟨⟨a, hga, hpa⟩, _, _⟩⟩
  exact List.any_eq_true.2 ⟨a, List.get?_mem hga, hpa⟩

/-- C7. With a configured grace period of 0, a successfully completed pass
places every non-sentinel owner of a prohibited-asset brick whose timer key
is absent into `clearedOwners`, and never writes a `ts:` timer key for that
owner (`src/main.rs:218`–`234`). -/
theorem c7_zero_grace (cfg : Config) (c : ℕ → ℕ) (players : List Player)
    (assets : List String) (owners : List BrickOwner) (bricks : List Brick)
    (store0 : Store) (s : PassState) (v : Option (List Brick)) (id : Uuid)
    (h0 : cfg.clear_after = 0)
    (hch : check_save cfg c players assets owners bricks store0 = (s, .ok v))
    (hviol : ∃ b ∈ bricks, ResolvesTo assets owners b id)
    (hsent : id ≠ PUBLIC_ID)
    (habs : storeGetFn store0 ("ts:" ++ id) = none) :
    id ∈ s.cleared
    ∧ ∀ val : Value, Effect.storeSet ("ts:" ++ id) val ∉ s.effects := by
  have h0' : cfg.clear_after.num = 0 := Rat.num_eq_zero.2 h0
  rcases check_save_ok_elim hch with ⟨_, _, hpre⟩ |
    ⟨s1, s2, b1, b2, _, hpb, hen, hf1, hf2, _, hs⟩
  · exfalso
    rw [viol_any_prohibited hviol] at hpre
    cases hpre
  · have hA : id ∈ s1.cleared :=
      processBricks_clears_c7 cfg c players assets owners h0' hsent bricks _ s1
        hpb habs (by simp) hviol
    have hsets2 : s2.micro = s1.micro ∧ s2.cleared = s1.cleared := by
      have := enforceOwners_sets cfg s1.cleared s1
      rw [hen] at this
      exact this
    constructor
    · have hcfin : s.cleared = s2.cleared := by
        rw [hs]
        exact (reconcileGo_sets _ _).2
      rw [hcfin, hsets2.2]
      exact hA
    · intro val hmemE
      rw [hs] at hmemE
      have h1 := reconcileGo_no_storeSet _ _ _ _ hmemE
      have h2 : Effect.storeSet ("ts:" ++ id) val ∈ s2.effects := by
        simpa using h1
      have h3 : Effect.storeSet ("ts:" ++ id) val ∈ s1.effects :=
        enforceOwners_ts_effects cfg id s1.cleared s1 val (by rw [hen]; exact h2)
      have h4 := processBricks_no_new_storeSet_num0 cfg c players assets owners h0'
        bricks _ ("ts:" ++ id) val (by rw [hpb]; exact h3)
      simp at h4

def cfg0 : Config := ⟨[], qInt 0, 3, qInt 5, 2⟩

/-- The final state of the zero-grace pass on A's single prohibited brick. -/
def finalState0 : PassState :=
  ⟨[], [idA],
   [("violations:" ++ idA, .int 1)],
   [.broadcast (clearingMsg "A"), .clearBricks idA,
    .logLine ("Clearing bricks of " ++ idA ++ " (1 violations)"),
    .storeSet ("violations:" ++ idA) (.int 1),
    .whisper idA (statusMsg 1 3),
    .writeSave [], .loadBricks], 1⟩

/-- C7 (witness). -/
theorem c7_zero_grace_witness :
    idA ∈ finalState0.cleared
    ∧ ∀ val : Value, Effect.storeSet ("ts:" ++ idA) val ∉ finalState0.effects :=
  c7_zero_grace cfg0 (fun _ => 77) [] assetsMicroOnly ownersA brickOfA []
    finalState0 (some []) idA (Rat.num_eq_zero.1 rfl) (by decide)
    ⟨⟨0, 1, 0⟩, by decide, ⟨⟨"MicroBrick", rfl, by decide⟩, by decide,
      ⟨⟨idA, "A"⟩, rfl, rfl⟩⟩⟩
    (by decide) rfl

/-! ## C8 — an unexpired timer warns, does not clear, leaves the timer alone -/

/-- C8. If an owner's timer key holds `T`, every clock read of the pass is
below `T + grace`, and the owner places a prohibited brick, then in a
successfully completed pass the owner is in `microOwners`, not in
`clearedOwners`, the stored timer value survives the pass unchanged, and no
write to that `ts:` key is ever emitted (`src/main.rs:197`–`216`). -/
theorem c8_unexpired_timer (cfg : Config) (c : ℕ → ℕ) (players : List Player)
    (assets : List String) (owners : List BrickOwner) (bricks : List Brick)
    (store0 : Store) (s : PassState) (v : Option (List Brick)) (id : Uuid)
    (str : String) (T : ℕ)
    (hch : check_save cfg c players assets owners bricks store0 = (s, .ok v))
    (hts : storeGetFn store0 ("ts:" ++ id) = some (.str str))
    (hT : parseU64 str = some T)
    (hclock : ∀ k, c k < T + graceSecs cfg)
    (hviol : ∃ b ∈ bricks, ResolvesTo assets owners b id)
    (hsent : id ≠ PUBLIC_ID) :
    id ∈ s.micro ∧ id ∉ s.cleared
    ∧ storeGetFn s.store ("ts:" ++ id) = some (.str str)
    ∧ ∀ val : Value, Effect.storeSet ("ts:" ++ id) val ∉ s.effects := by
  rcases check_save_ok_elim hch with ⟨_, _, hpre⟩ |
    ⟨s1, s2, b1, b2, _, hpb, hen, hf1, hf2, _, hs⟩
  · exfalso
    rw [viol_any_prohibited hviol] at hpre
    cases hpre
  · have hmic1 : id ∈ s1.micro :=
      processBricks_warns_c8 cfg c players assets owners hT hclock hsent bricks
        _ s1 hpb hts (by simp) hviol
    have hncl1 : id ∉ s1.cleared := by
      have := processBricks_not_cleared_c8 cfg c players assets owners hT hclock
        bricks ⟨[], [], store0, [], 0⟩ hts (by simp)
      rw [hpb] at this
      exact this
    have hget1 : storeGetFn s1.store ("ts:" ++ id) = some (.str str) := by
      have := processBricks_storeGet_str cfg c players assets owners bricks
        ⟨[], [], store0, [], 0⟩ hts
      rw [hpb] at this
      exact this
    have hsets2 : s2.micro = s1.micro ∧ s2.cleared = s1.cleared := by
      have := enforceOwners_sets cfg s1.cleared s1
      rw [hen] at this
      exact this
    have hget2 : storeGetFn s2.store ("ts:" ++ id) = some (.str str) := by
      have := enforceOwners_storeGet_ts cfg id s1.cleared s1
      rw [hen] at this
      exact this.trans hget1
    have hm2 : id ∈ s2.micro := by
      rw [hsets2.1]
      exact hmic1
    have hnc2 : id ∉ s2.cleared := by
      rw [hsets2.2]
      exact hncl1
    refine ⟨?_, ?_, ?_, ?_⟩
    · have hmfin : s.micro = s2.micro := by
        rw [hs]
        exact (reconcileGo_sets _ _).1
      rw [hmfin]
      exact hm2
    · have hcfin : s.cleared = s2.cleared := by
        rw [hs]
        exact (reconcileGo_sets _ _).2
      rw [hcfin]
      exact hnc2
    · rw [hs]
      exact (reconcileGo_keeps (storeKeysFn s2.store)
        { s2 with effects := s2.effects ++ [Effect.writeSave b2, Effect.loadBricks] }
        hm2 hnc2).trans hget2
    · intro val hmemE
      rw [hs] at hmemE
      have h1 := reconcileGo_no_storeSet _ _ _ _ hmemE
      have h2 : Effect.storeSet ("ts:" ++ id) val ∈ s2.effects := by
        simpa using h1
      have h3 : Effect.storeSet ("ts:" ++ id) val ∈ s1.effects :=
        enforceOwners_ts_effects cfg id s1.cleared s1 val (by rw [hen]; exact h2)
      have h4 := processBricks_no_ts_set_c8 cfg c players assets owners bricks
        ⟨[], [], store0, [], 0⟩ hts val (by rw [hpb]; exact h3)
      simp at h4

def storeA100 : Store := [("ts:" ++ idA, .str "100")]

/-- The final state of the unexpired-timer pass on A's single prohibited
brick with the clock frozen at 150 (timer 100, grace 60 s). -/
def finalState8 : PassState :=
  ⟨[idA], [], [("ts:" ++ idA, .str "100")],
   [.writeSave [], .loadBricks], 1⟩

/-- C8 (witness). -/
theorem c8_unexpired_timer_witness :
    idA ∈ finalState8.micro ∧ idA ∉ finalState8.cleared
    ∧ storeGetFn finalState8.store ("ts:" ++ idA) = some (.str "100")
    ∧ ∀ val : Value, Effect.storeSet ("ts:" ++ idA) val ∉ finalState8.effects :=
  c8_unexpired_timer cfg1 clockConst150 [] assetsMicroOnly ownersA brickOfA
    storeA100 finalState8 (some []) idA "100" 100 (by decide) (by decide)
    (by decide)
    (fun k => by
      show (150 : ℕ) < 100 + graceSecs cfg1
      decide)
    ⟨⟨0, 1, 0⟩, by decide, ⟨⟨"MicroBrick", rfl, by decide⟩, by decide,
      ⟨⟨idA, "A"⟩, rfl, rfl⟩⟩⟩
    (by decide)

end AntiMicrobrick
